import Mathlib

/-!
Verification of the BizPulse/BizOps analytics pipeline (src/BizOps.go).

The Go program is shallowly embedded:
  * `float64` values are modelled as exact rationals (`ℚ`);
  * `time.Time` is modelled by `GoTime` (wall-clock fields plus a zone
    offset in minutes, which is how `time.Parse` stores an RFC3339 zone);
  * fallible parsing returns `Option`, and `parseCSV`'s `([]Sale, error)`
    result is an `Except`;
  * Go's unstable `sort.Slice` (pdqsort, `src/sort/zsortfunc.go`) is
    embedded as a fuel-driven swap program on arrays;
  * the float expression `z = (v-mean)/math.Sqrt(var)` is represented by
    the exact pair `(v-mean, var)`; the comparisons `|z| >= 2`, `z < -2`,
    `z > 2` are expressed square-free over `ℚ` and proved equivalent to
    the real-number z-score comparisons (`zsq_*` lemmas below).
-/

set_option maxRecDepth 8000000

deriving instance DecidableEq for Except

namespace BizOps

/-- Wall-clock time as Go's `time.Time` exposes it: year/month/day,
hour/minute/second, and the zone offset (minutes east of UTC) that
`time.Parse` records from an RFC3339 value.  All non-RFC3339 date formats
in the program parse to UTC midnight (offset 0). -/
structure GoTime where
  year   : ℕ
  month  : ℕ
  day    : ℕ
  hour   : ℕ
  minute : ℕ
  second : ℕ
  offsetMin : ℤ
  deriving DecidableEq, Repr

/-- Go's zero `time.Time{}`: January 1, year 1, 00:00:00 UTC. -/
def goTimeZero : GoTime := ⟨1, 1, 1, 0, 0, 0, 0⟩

/-- Leap-year rule used by Go's `time` package (proleptic Gregorian). -/
def isLeapYear (y : ℕ) : Bool := y % 4 == 0 && (y % 100 != 0 || y % 400 == 0)

/-- Number of days in a month, as Go's `daysIn` computes it. -/
def daysInMonth (y m : ℕ) : ℕ :=
  if m = 2 then (if isLeapYear y then 29 else 28)
  else if m = 4 ∨ m = 6 ∨ m = 9 ∨ m = 11 then 30
  else 31

/-- Days from 1970-01-01 to the civil date `y-m-d` (Howard Hinnant's
`days_from_civil`); this is the day-number arithmetic underlying Go's
absolute-time representation. -/
def daysFromCivil (y : ℤ) (m d : ℕ) : ℤ :=
  let y' : ℤ := if m ≤ 2 then y - 1 else y
  let era : ℤ := Int.fdiv y' 400
  let yoe : ℤ := y' - era * 400
  let mp : ℤ := ((m : ℤ) + 9) % 12
  let doy : ℤ := Int.fdiv (153 * mp + 2) 5 + (d : ℤ) - 1
  let doe : ℤ := yoe * 365 + Int.fdiv yoe 4 - Int.fdiv yoe 100 + doy
  era * 146097 + doe - 719468

/-- Inverse of `daysFromCivil` (Hinnant's `civil_from_days`). -/
def civilFromDays (z0 : ℤ) : ℤ × ℕ × ℕ :=
  let z : ℤ := z0 + 719468
  let era : ℤ := Int.fdiv z 146097
  let doe : ℤ := z - era * 146097
  let yoe : ℤ := Int.fdiv (doe - Int.fdiv doe 1460 + Int.fdiv doe 36524 - Int.fdiv doe 146096) 365
  let y : ℤ := yoe + era * 400
  let doy : ℤ := doe - (365 * yoe + Int.fdiv yoe 4 - Int.fdiv yoe 100)
  let mp : ℤ := Int.fdiv (5 * doy + 2) 153
  let d : ℤ := doy - Int.fdiv (153 * mp + 2) 5 + 1
  let m : ℤ := if mp < 10 then mp + 3 else mp - 9
  (if m ≤ 2 then y + 1 else y, m.toNat, d.toNat)

/-- Absolute instant of a `GoTime` in seconds since 0001-01-01T00:00:00 UTC
(Go compares `time.Time` values by instant, wall clock minus zone offset). -/
def absSeconds (t : GoTime) : ℤ :=
  (daysFromCivil (t.year : ℤ) t.month t.day - daysFromCivil 1 1 1) * 86400
    + (t.hour : ℤ) * 3600 + (t.minute : ℤ) * 60 + (t.second : ℤ)
    - t.offsetMin * 60

/-- Model of `t.Before(u)`. -/
def timeBefore (t u : GoTime) : Bool := absSeconds t < absSeconds u

/-- Model of `t.IsZero()`: `t` denotes the zero instant. -/
def timeIsZero (t : GoTime) : Bool := absSeconds t == 0

/-- Model of `t.ISOWeek()`: the ISO 8601 year and week of the Thursday of
the Monday-based week containing `t` (Go's algorithm). -/
def isoWeek (t : GoTime) : ℤ × ℤ :=
  let dn : ℤ := daysFromCivil (t.year : ℤ) t.month t.day
  let wd : ℤ := (dn - daysFromCivil 1 1 1).emod 7   -- 0 = Monday … 6 = Sunday
  let thu : ℤ := dn + (3 - wd)
  let c := civilFromDays thu
  let yday : ℤ := thu - daysFromCivil c.1 1 1
  (c.1, Int.fdiv yday 7 + 1)

/-! Character and string helpers mirroring the `strings`/`strconv` calls. -/

/-- Whitespace trimmed by `strings.TrimSpace` (ASCII space set plus NEL and
NBSP; the model covers the characters relevant to tabular text). -/
def isGoSpace (c : Char) : Bool :=
  c = ' ' || c = '\t' || c = '\n' || c.val = 11 || c.val = 12 || c = '\r'
    || c.val = 0x85 || c.val = 0xA0

/-- Model of `strings.TrimSpace` on a character list. -/
def goTrimChars (cs : List Char) : List Char :=
  ((cs.dropWhile isGoSpace).reverse.dropWhile isGoSpace).reverse

/-- Model of `strings.TrimSpace`. -/
def goTrim (s : String) : String := ⟨goTrimChars s.data⟩

/-- ASCII lower-casing, the fragment of `strings.ToLower` exercised by the
program's status/header fields. -/
def goToLower (s : String) : String := ⟨s.data.map Char.toLower⟩

/-- Does `sub` occur at the head of `hay`? (helper for `strings.Contains`). -/
def matchesAt : List Char → List Char → Bool
  | [], _ => true
  | _ :: _, [] => false
  | c :: s, h :: hs => c == h && matchesAt s hs

/-- Helper for `strings.Contains`: does `sub` occur anywhere in `hay`? -/
def containsAux (sub : List Char) : List Char → Bool
  | [] => matchesAt sub []
  | h :: hs => matchesAt sub (h :: hs) || containsAux sub hs

/-- Model of `strings.Contains hay sub`. -/
def goContainsStr (hay sub : String) : Bool := containsAux sub.data hay.data

/-- Numeric value of a decimal digit character. -/
def digitVal (c : Char) : ℕ := c.toNat - 48

/-- The ten decimal digit characters. -/
def decDigits : List Char := ['0', '1', '2', '3', '4', '5', '6', '7', '8', '9']

/-- Render a digit `n % 10` as a character. -/
def digitChar (n : ℕ) : Char := decDigits.getD (n % 10) '0'

/-- Zero-padded two-digit rendering (Go layout element `01`/`02`). -/
def pad2 (n : ℕ) : List Char := [digitChar (n / 10), digitChar n]

/-- Zero-padded four-digit rendering (Go layout element `2006`). -/
def pad4 (n : ℕ) : List Char :=
  if n < 10000 then [digitChar (n / 1000), digitChar (n / 100), digitChar (n / 10), digitChar n]
  else (Nat.toDigits 10 n)

/-! Combinator-style model of `time.Parse` for the layouts the program
uses.  A fixed-width numeric layout element (`2006`, `01`, `02`, `15`,
`04`, `05`) consumes exactly that many digits; a literal consumes itself;
the whole value must be consumed; month and day are range-checked as Go
does.  Each parser returns `none` exactly when Go's `time.Parse` errors. -/

/-- Consume exactly two digits. -/
def parse2 : List Char → Option (ℕ × List Char)
  | c1 :: c2 :: rest =>
    if c1.isDigit && c2.isDigit then some (10 * digitVal c1 + digitVal c2, rest) else none
  | _ => none

/-- Consume exactly four digits. -/
def parse4 : List Char → Option (ℕ × List Char)
  | c1 :: c2 :: c3 :: c4 :: rest =>
    if c1.isDigit && c2.isDigit && c3.isDigit && c4.isDigit then
      some (1000 * digitVal c1 + 100 * digitVal c2 + 10 * digitVal c3 + digitVal c4, rest)
    else none
  | _ => none

/-- Consume a literal character. -/
def expectChar (c : Char) : List Char → Option (List Char)
  | c' :: rest => if c' == c then some rest else none
  | _ => none

/-- Succeed only at end of input (Go errors on extra text). -/
def expectEnd : List Char → Option Unit
  | [] => some ()
  | _ :: _ => none

/-- Range checks Go applies to a parsed calendar date, and the resulting
midnight-UTC time value. -/
def mkDate (y m d : ℕ) : Option GoTime :=
  if 1 ≤ m ∧ m ≤ 12 ∧ 1 ≤ d ∧ d ≤ daysInMonth y m then some ⟨y, m, d, 0, 0, 0, 0⟩ else none

/-- Layout `2006-01-02`. -/
def parseLayoutISO (cs : List Char) : Option GoTime := do
  let (y, cs) ← parse4 cs
  let cs ← expectChar '-' cs
  let (m, cs) ← parse2 cs
  let cs ← expectChar '-' cs
  let (d, cs) ← parse2 cs
  let _ ← expectEnd cs
  mkDate y m d

/-- Layout `02/01/2006` (day first, then month). -/
def parseLayoutDM (cs : List Char) : Option GoTime := do
  let (d, cs) ← parse2 cs
  let cs ← expectChar '/' cs
  let (m, cs) ← parse2 cs
  let cs ← expectChar '/' cs
  let (y, cs) ← parse4 cs
  let _ ← expectEnd cs
  mkDate y m d

/-- Layout `01/02/2006` (month first, then day). -/
def parseLayoutMD (cs : List Char) : Option GoTime := do
  let (m, cs) ← parse2 cs
  let cs ← expectChar '/' cs
  let (d, cs) ← parse2 cs
  let cs ← expectChar '/' cs
  let (y, cs) ← parse4 cs
  let _ ← expectEnd cs
  mkDate y m d

/-- Layout `2006/01/02`. -/
def parseLayoutYMDSlash (cs : List Char) : Option GoTime := do
  let (y, cs) ← parse4 cs
  let cs ← expectChar '/' cs
  let (m, cs) ← parse2 cs
  let cs ← expectChar '/' cs
  let (d, cs) ← parse2 cs
  let _ ← expectEnd cs
  mkDate y m d

/-- Layout `2006.01.02`. -/
def parseLayoutDot (cs : List Char) : Option GoTime := do
  let (y, cs) ← parse4 cs
  let cs ← expectChar '.' cs
  let (m, cs) ← parse2 cs
  let cs ← expectChar '.' cs
  let (d, cs) ← parse2 cs
  let _ ← expectEnd cs
  mkDate y m d

/-- Optional fractional seconds of an RFC3339 value (a dot followed by at
least one digit); the digits are dropped, as nothing in the program looks
below one-second resolution. -/
def skipFraction : List Char → List Char
  | '.' :: c :: rest =>
    if c.isDigit then (c :: rest).dropWhile Char.isDigit else '.' :: c :: rest
  | cs => cs

/-- Zone suffix of an RFC3339 value: `Z` or `±hh:mm`; yields the offset in
minutes east of UTC. -/
def parseZone : List Char → Option (ℤ × List Char)
  | 'Z' :: rest => some (0, rest)
  | c :: rest =>
    if c == '+' ∨ c == '-' then do
      let (h, cs) ← parse2 rest
      let cs ← expectChar ':' cs
      let (m, cs) ← parse2 cs
      if h ≤ 23 ∧ m ≤ 59 then
        some (if c == '+' then ((h : ℤ) * 60 + m, cs) else (-((h : ℤ) * 60 + m), cs))
      else none
    else none
  | _ => none

/-- The `2006-01-02` prefix of an RFC3339 value. -/
def parseDatePart (cs : List Char) : Option (ℕ × ℕ × ℕ × List Char) := do
  let (y, cs) ← parse4 cs
  let cs ← expectChar '-' cs
  let (mo, cs) ← parse2 cs
  let cs ← expectChar '-' cs
  let (d, cs) ← parse2 cs
  some (y, mo, d, cs)

/-- The `15:04:05` fragment of an RFC3339 value. -/
def parseClockPart (cs : List Char) : Option (ℕ × ℕ × ℕ × List Char) := do
  let (h, cs) ← parse2 cs
  let cs ← expectChar ':' cs
  let (mi, cs) ← parse2 cs
  let cs ← expectChar ':' cs
  let (s, cs) ← parse2 cs
  some (h, mi, s, cs)

/-- Layout `time.RFC3339` (`2006-01-02T15:04:05Z07:00`). -/
def parseLayoutRFC3339 (cs : List Char) : Option GoTime := do
  let (y, mo, d, cs) ← parseDatePart cs
  let cs ← expectChar 'T' cs
  let (h, mi, s, cs) ← parseClockPart cs
  let cs := skipFraction cs
  let (off, cs) ← parseZone cs
  let _ ← expectEnd cs
  if 1 ≤ mo ∧ mo ≤ 12 ∧ 1 ≤ d ∧ d ≤ daysInMonth y mo ∧ h ≤ 23 ∧ mi ≤ 59 ∧ s ≤ 59 then
    some ⟨y, mo, d, h, mi, s, off⟩
  else none

/-- Layout `2006-01` (day defaults to 1). -/
def parseLayoutYM (cs : List Char) : Option GoTime := do
  let (y, cs) ← parse4 cs
  let cs ← expectChar '-' cs
  let (m, cs) ← parse2 cs
  let _ ← expectEnd cs
  if 1 ≤ m ∧ m ≤ 12 then some ⟨y, m, 1, 0, 0, 0, 0⟩ else none

/-- Try a list of layout parsers in order; the first success wins. -/
def firstParse : List (List Char → Option GoTime) → List Char → Option GoTime
  | [], _ => none
  | f :: fs, cs =>
    match f cs with
    | some t => some t
    | none => firstParse fs cs

/-- The candidate layout list of `parseDateFlexible`, in source order. -/
def goCandidates : List (List Char → Option GoTime) :=
  [parseLayoutISO, parseLayoutDM, parseLayoutMD, parseLayoutYMDSlash,
    parseLayoutDot, parseLayoutRFC3339]

/-- Model of `parseDateFlexible`: trim, try the candidate layouts in order,
then the partial layout `2006-01`; return the zero time on total failure. -/
def parseDateFlexible (s : String) : GoTime :=
  let cs := goTrimChars s.data
  match firstParse goCandidates cs with
  | some t => t
  | none =>
    match parseLayoutYM cs with
    | some t => t
    | none => goTimeZero

/-! CSV ingestion (`parseCSV`).  The `encoding/csv` reader itself is an
upstream collaborator: its outcome (a read error, or the list of rows,
each a list of fields) is the input of the embedded function, exactly the
value `cr.ReadAll()` hands to the rest of `parseCSV`. -/

/-- Decimal core of `strconv.ParseFloat`: optional sign, digits with an
optional fractional part and an optional decimal exponent, full
consumption required.  (Hex floats, `inf`/`NaN` and digit underscores are
out of scope; no field of the program's data uses them.) -/
def parseDecMantissa : List Char → Option (ℚ × List Char)
  | cs =>
    let intPart := cs.takeWhile Char.isDigit
    let rest := cs.dropWhile Char.isDigit
    match rest with
    | '.' :: rest' =>
      let fracPart := rest'.takeWhile Char.isDigit
      let rest'' := rest'.dropWhile Char.isDigit
      if intPart.length + fracPart.length = 0 then none
      else
        let num : ℕ := (intPart ++ fracPart).foldl (fun a c => 10 * a + digitVal c) 0
        some ((num : ℚ) / (10 : ℚ) ^ fracPart.length, rest'')
    | _ =>
      if intPart.length = 0 then none
      else some (((intPart.foldl (fun a c => 10 * a + digitVal c) 0 : ℕ) : ℚ), rest)

/-- Optional decimal exponent `e±ddd` of `strconv.ParseFloat`. -/
def parseExponent : List Char → Option (ℤ × List Char)
  | c :: cs =>
    if c == 'e' ∨ c == 'E' then
      let (sgn, cs') : ℤ × List Char :=
        match cs with
        | '+' :: r => (1, r)
        | '-' :: r => (-1, r)
        | r => (1, r)
      let ds := cs'.takeWhile Char.isDigit
      if ds.length = 0 then none
      else some (sgn * (ds.foldl (fun a c => 10 * a + digitVal c) 0 : ℕ), cs'.dropWhile Char.isDigit)
    else some (0, c :: cs)
  | [] => some (0, [])

/-- Model of `strconv.ParseFloat` on the decimal fragment: `none` exactly
when Go errors (in the program that error is discarded and the amount
becomes 0). -/
def goParseFloat (s : String) : Option ℚ :=
  let (sgn, cs) : ℚ × List Char :=
    match s.data with
    | '+' :: r => (1, r)
    | '-' :: r => (-1, r)
    | r => (1, r)
  match parseDecMantissa cs with
  | none => none
  | some (m, rest) =>
    match parseExponent rest with
    | none => none
    | some (e, rest') =>
      match rest' with
      | [] => some (sgn * m * (10 : ℚ) ^ e)
      | _ :: _ => none

/-- Model of the helper `nz`. -/
def nz (a b : String) : String := if goTrim a = "" then b else a

/-- One normalized sale record (`type Sale`). -/
structure Sale where
  date : GoTime
  customer : String
  product : String
  amount : ℚ
  status : String
  deriving DecidableEq, Repr

/-- Replace the value under `k` or append a new entry: the effect of
`h[k] = i` on Go's header map, keyed by insertion order for enumeration. -/
def upsertSet (m : List (String × ℕ)) (k : String) (i : ℕ) : List (String × ℕ) :=
  match m with
  | [] => [(k, i)]
  | (k', v) :: rest => if k' = k then (k, i) :: rest else (k', v) :: upsertSet rest k i

/-- The header map of `parseCSV`: lower-cased, trimmed column name ↦ column
index, later duplicates overwriting earlier ones. -/
def canonHeader (hdr : List String) : List (String × ℕ) :=
  (hdr.enum.map (fun p => (goToLower (goTrim p.2), p.1))).foldl
    (fun m p => upsertSet m p.1 p.2) []

/-- The fuzzy column lookup `get`: scan the header-map entries in the order
given by `enum`, and return the trimmed field of the first entry whose
name contains `key` and whose index is within the row; `""` if none.  Go
iterates the map in an unspecified order, so `enum` is a parameter; the
program's behaviour corresponds to an arbitrary permutation of the map's
entries (claim C9 concerns exactly this). -/
def getCol (enum : List (String × ℕ)) (row : List String) (key : String) : String :=
  match enum.find? (fun e => goContainsStr e.1 key && decide (e.2 < row.length)) with
  | some e => goTrim (row.getD e.2 "")
  | none => ""

/-- Normalization of one data row (the body of the `for _, row := range
records[1:]` loop); `none` is the `continue` case. -/
def rowToSale (enum : List (String × ℕ)) (row : List String) : Option Sale :=
  let ds := getCol enum row "date"
  if ds = "" then none
  else
    let dt := parseDateFlexible ds
    if timeIsZero dt then none
    else
      let amtStr := getCol enum row "amount"
      let amt := (goParseFloat ⟨(goTrim amtStr).data.filter (fun c => ¬ c = ',')⟩).getD 0
      some { date := dt
             customer := nz (getCol enum row "customer") "Unknown"
             product := nz (getCol enum row "product") "Unknown"
             amount := amt
             status := goToLower (getCol enum row "status") }

/-- Record extraction of `parseCSV` after the row-count check, parametrized
by the header-map enumeration order. -/
def parseCSVWith (enum : List (String × ℕ)) (records : List (List String)) : List Sale :=
  (records.drop 1).filterMap (rowToSale enum)

/-- Model of `parseCSV`: the argument is the outcome of `cr.ReadAll()`.
An unreadable stream propagates as `csv read: …`; fewer than two rows is
`csv has no data rows`; otherwise the rows are normalized, using the
insertion-order enumeration of the header map. -/
def parseCSVGo (readResult : Except String (List (List String))) :
    Except String (List Sale) :=
  match readResult with
  | .error e => .error ("csv read: " ++ e)
  | .ok records =>
    if records.length < 2 then .error "csv has no data rows"
    else .ok (parseCSVWith (canonHeader (records.headD [])) records)

/-! Embedding of Go's `sort.Slice` (`src/sort/zsortfunc.go`, pattern-
defeating quicksort, Go ≥ 1.19).  Every mutation of the slice goes through
`aswap`, so permutation invariance is provable once and composed.  Loops
are driven by explicit fuel; the entry point supplies fuel that dominates
every actual run, and the permutation lemmas hold for any fuel. -/

/-- Swap two positions of an array (out-of-range indices never occur in an
actual run; they leave the array unchanged). -/
def aswap (arr : Array α) (i j : Nat) : Array α :=
  if h : i < arr.size ∧ j < arr.size then
    let vi := arr.get ⟨i, h.1⟩
    let vj := arr.get ⟨j, h.2⟩
    (arr.set ⟨i, h.1⟩ vj).set ⟨j, by simpa using h.2⟩ vi
  else arr

/-- Model of `data.Less(i, j)` on the current array state. -/
def lessAt (less : α → α → Bool) (arr : Array α) (i j : Nat) : Bool :=
  match arr.get? i, arr.get? j with
  | some x, some y => less x y
  | _, _ => false

/-- Model of `bits.Len(uint(n))`. -/
def bitsLen (n : ℕ) : ℕ := if n = 0 then 0 else Nat.log2 n + 1

/-- Inner loop of `insertionSort_func`: sift element `j` down to `lo`. -/
def insertInner (less : α → α → Bool) (lo : Nat) : Array α → Nat → Array α
  | arr, 0 => arr
  | arr, j + 1 =>
    if lo ≤ j ∧ lessAt less arr (j + 1) j then
      insertInner less lo (aswap arr (j + 1) j) j
    else arr

/-- Model of `insertionSort_func(data, a, b)`. -/
def insertionSortGo (less : α → α → Bool) (arr : Array α) (a b : Nat) : Array α :=
  (List.range' (a + 1) (b - (a + 1))).foldl (fun acc i => insertInner less a acc i) arr

/-- Model of `siftDown_func(data, root, hi, first)` (fuel-driven). -/
def siftDownGo (less : α → α → Bool) (first : Nat) : Array α → Nat → Nat → Nat → Array α
  | arr, 0, _, _ => arr
  | arr, fuel + 1, root, hi =>
    let child1 := 2 * root + 1
    if child1 ≥ hi then arr
    else
      let child :=
        if child1 + 1 < hi ∧ lessAt less arr (first + child1) (first + child1 + 1) then child1 + 1
        else child1
      if ¬ (lessAt less arr (first + root) (first + child) = true) then arr
      else siftDownGo less first (aswap arr (first + root) (first + child)) fuel child hi

/-- Model of `heapSort_func(data, a, b)`. -/
def heapSortGo (less : α → α → Bool) (arr : Array α) (a b : Nat) : Array α :=
  let first := a
  let hi := b - a
  let arr1 := (List.range ((hi - 1) / 2 + 1)).reverse.foldl
    (fun acc i => siftDownGo less first acc (hi + 1) i hi) arr
  (List.range hi).reverse.foldl
    (fun acc i => siftDownGo less first (aswap acc first (first + i)) (hi + 1) 0 i) arr1

/-- Model of `reverseRange_func(data, a, b)` (arguments: fuel, `i`, `j`). -/
def reverseRangeGo (arr : Array α) : Nat → Nat → Nat → Array α
  | 0, _, _ => arr
  | fuel + 1, i, j => if i < j then reverseRangeGo (aswap arr i j) fuel (i + 1) (j - 1) else arr

/-- One step of the `xorshift` generator of `breakPatterns_func`
(64-bit arithmetic, shifts 13/7/17). -/
def xorshiftNext (r : Nat) : Nat :=
  let m := 2 ^ 64
  let r1 := (r ^^^ (r <<< 13)) % m
  let r2 := (r1 ^^^ (r1 >>> 7)) % m
  (r2 ^^^ (r2 <<< 17)) % m

/-- Model of `nextPowerOfTwo`. -/
def nextPowerOfTwo (n : ℕ) : ℕ := 2 ^ bitsLen n

/-- Model of `breakPatterns_func(data, a, b)`. -/
def breakPatternsGo (arr : Array α) (a b : Nat) : Array α :=
  let length := b - a
  if length ≥ 8 then
    let modulus := nextPowerOfTwo length
    let idx := a + (length / 4) * 2 - 1
    let r1 := xorshiftNext length
    let o1 := r1 &&& (modulus - 1)
    let o1 := if o1 ≥ length then o1 - length else o1
    let arr := aswap arr idx (a + o1)
    let r2 := xorshiftNext r1
    let o2 := r2 &&& (modulus - 1)
    let o2 := if o2 ≥ length then o2 - length else o2
    let arr := aswap arr (idx + 1) (a + o2)
    let r3 := xorshiftNext r2
    let o3 := r3 &&& (modulus - 1)
    let o3 := if o3 ≥ length then o3 - length else o3
    aswap arr (idx + 2) (a + o3)
  else arr

/-- Hints returned by `choosePivot_func`. -/
inductive Hint where
  | increasing
  | decreasing
  | unknown
  deriving DecidableEq, Repr

/-- Model of `order2_func`: reorder two indices, counting swaps. -/
def order2Go (less : α → α → Bool) (arr : Array α) (a b swaps : Nat) : Nat × Nat × Nat :=
  if lessAt less arr b a then (b, a, swaps + 1) else (a, b, swaps)

/-- Model of `median_func`: index of the median of three positions. -/
def medianGo (less : α → α → Bool) (arr : Array α) (a b c swaps : Nat) : Nat × Nat :=
  let (a1, b1, s1) := order2Go less arr a b swaps
  let (b2, _, s2) := order2Go less arr b1 c s1
  let (_, b3, s3) := order2Go less arr a1 b2 s2
  (b3, s3)

/-- Model of `medianAdjacent_func`. -/
def medianAdjacentGo (less : α → α → Bool) (arr : Array α) (i swaps : Nat) : Nat × Nat :=
  medianGo less arr (i - 1) i (i + 1) swaps

/-- Model of `choosePivot_func(data, a, b)`. -/
def choosePivotGo (less : α → α → Bool) (arr : Array α) (a b : Nat) : Nat × Hint :=
  let l := b - a
  let i := a + l / 4 * 1
  let j := a + l / 4 * 2
  let k := a + l / 4 * 3
  let (jf, swaps) :=
    if l ≥ 8 then
      if l ≥ 50 then
        let (i1, s1) := medianAdjacentGo less arr i 0
        let (j1, s2) := medianAdjacentGo less arr j s1
        let (k1, s3) := medianAdjacentGo less arr k s2
        medianGo less arr i1 j1 k1 s3
      else medianGo less arr i j k 0
    else (j, 0)
  if swaps = 0 then (jf, Hint.increasing)
  else if swaps = 12 then (jf, Hint.decreasing)
  else (jf, Hint.unknown)

/-- The `for i <= j && data.Less(i, a)` advance of `partition_func`. -/
def advanceLtI (less : α → α → Bool) (arr : Array α) (lo : Nat) : Nat → Nat → Nat → Nat
  | 0, i, _ => i
  | fuel + 1, i, j =>
    if i ≤ j ∧ lessAt less arr i lo then advanceLtI less arr lo fuel (i + 1) j else i

/-- The `for i <= j && !data.Less(j, a)` advance of `partition_func`. -/
def advanceGeJ (less : α → α → Bool) (arr : Array α) (lo : Nat) : Nat → Nat → Nat → Nat
  | 0, _, j => j
  | fuel + 1, i, j =>
    if i ≤ j ∧ ¬ (lessAt less arr j lo = true) then advanceGeJ less arr lo fuel i (j - 1) else j

/-- The unconditional `for {}` loop of `partition_func`. -/
def partitionLoop (less : α → α → Bool) (lo advFuel : Nat) :
    Array α → Nat → Nat → Nat → Array α × Nat
  | arr, 0, _, j => (arr, j)
  | arr, fuel + 1, i, j =>
    let i1 := advanceLtI less arr lo advFuel i j
    let j1 := advanceGeJ less arr lo advFuel i1 j
    if i1 > j1 then (arr, j1)
    else partitionLoop less lo advFuel (aswap arr i1 j1) fuel (i1 + 1) (j1 - 1)

/-- Model of `partition_func(data, a, b, pivot)`: the partitioned array,
the new pivot position, and whether the range was already partitioned. -/
def partitionGo (less : α → α → Bool) (arr0 : Array α) (a b pivot : Nat) :
    Array α × Nat × Bool :=
  let arr := aswap arr0 a pivot
  let i1 := advanceLtI less arr a (b + 2) (a + 1) (b - 1)
  let j1 := advanceGeJ less arr a (b + 2) i1 (b - 1)
  if i1 > j1 then (aswap arr j1 a, j1, true)
  else
    let pl := partitionLoop less a (b + 2) (aswap arr i1 j1) (b + 2) (i1 + 1) (j1 - 1)
    (aswap pl.1 pl.2 a, pl.2, false)

/-- The `for i <= j && !data.Less(a, i)` advance of `partitionEqual_func`. -/
def advanceEqI (less : α → α → Bool) (arr : Array α) (lo : Nat) : Nat → Nat → Nat → Nat
  | 0, i, _ => i
  | fuel + 1, i, j =>
    if i ≤ j ∧ ¬ (lessAt less arr lo i = true) then advanceEqI less arr lo fuel (i + 1) j else i

/-- The `for i <= j && data.Less(a, j)` advance of `partitionEqual_func`. -/
def advanceGtJ (less : α → α → Bool) (arr : Array α) (lo : Nat) : Nat → Nat → Nat → Nat
  | 0, _, j => j
  | fuel + 1, i, j =>
    if i ≤ j ∧ lessAt less arr lo j then advanceGtJ less arr lo fuel i (j - 1) else j

/-- The `for {}` loop of `partitionEqual_func`. -/
def partitionEqualLoop (less : α → α → Bool) (lo advFuel : Nat) :
    Array α → Nat → Nat → Nat → Array α × Nat
  | arr, 0, i, _ => (arr, i)
  | arr, fuel + 1, i, j =>
    let i1 := advanceEqI less arr lo advFuel i j
    let j1 := advanceGtJ less arr lo advFuel i1 j
    if i1 > j1 then (arr, i1)
    else partitionEqualLoop less lo advFuel (aswap arr i1 j1) fuel (i1 + 1) (j1 - 1)

/-- Model of `partitionEqual_func(data, a, b, pivot)`. -/
def partitionEqualGo (less : α → α → Bool) (arr0 : Array α) (a b pivot : Nat) :
    Array α × Nat :=
  let arr := aswap arr0 a pivot
  partitionEqualLoop less a (b + 2) arr (b + 2) (a + 1) (b - 1)

/-- Left shift step of `partialInsertionSort_func` (counts down from its
starting index; note the source's absolute lower bound `j >= 1`). -/
def shiftLeftLoop (less : α → α → Bool) : Array α → Nat → Array α
  | arr, 0 => arr
  | arr, j + 1 =>
    if lessAt less arr (j + 1) j then shiftLeftLoop less (aswap arr (j + 1) j) j else arr

/-- Right shift step of `partialInsertionSort_func`. -/
def shiftRightLoop (less : α → α → Bool) (b : Nat) : Array α → Nat → Nat → Array α
  | arr, 0, _ => arr
  | arr, fuel + 1, j =>
    if j < b ∧ lessAt less arr j (j - 1) then shiftRightLoop less b (aswap arr j (j - 1)) fuel (j + 1)
    else arr

/-- The `for i < b && !data.Less(i, i-1)` advance of `partialInsertionSort_func`. -/
def advanceSortedI (less : α → α → Bool) (b : Nat) (arr : Array α) : Nat → Nat → Nat
  | 0, i => i
  | fuel + 1, i =>
    if i < b ∧ ¬ (lessAt less arr i (i - 1) = true) then advanceSortedI less b arr fuel (i + 1)
    else i

/-- Outer loop of `partialInsertionSort_func` (at most `maxSteps = 5`
rounds; on ranges shorter than `shortestShifting = 50` no element moves). -/
def partialInsertionSortLoop (less : α → α → Bool) (a b : Nat) :
    Array α → Nat → Nat → Array α × Bool
  | arr, 0, _ => (arr, false)
  | arr, steps + 1, i =>
    let i1 := advanceSortedI less b arr (b + 2) i
    if i1 = b then (arr, true)
    else if b - a < 50 then (arr, false)
    else
      let arr1 := aswap arr i1 (i1 - 1)
      let arr2 := if i1 - a ≥ 2 then shiftLeftLoop less arr1 (i1 - 1) else arr1
      let arr3 := if b - i1 ≥ 2 then shiftRightLoop less b arr2 (b + 2) (i1 + 1) else arr2
      partialInsertionSortLoop less a b arr3 steps i1

/-- Model of `partialInsertionSort_func(data, a, b)`. -/
def partialInsertionSortGo (less : α → α → Bool) (arr : Array α) (a b : Nat) :
    Array α × Bool :=
  partialInsertionSortLoop less a b arr 5 (a + 1)

/-- The head of one `pdqsort_func` loop iteration, up to the early-exit
test: break patterns when the last partition was unbalanced (decrementing
`limit`), choose a pivot, reverse a decreasing range, and attempt the
partial insertion sort when the slice looks sorted.  Returns the mutated
array, the remaining `limit`, the pivot index, and whether
`partialInsertionSort` already finished the range. -/
def pdqPrelude (less : α → α → Bool) (arr : Array α) (a b limit : Nat) (wb wp : Bool) :
    Array α × Nat × Nat × Bool :=
  let ab := if ¬ (wb = true) then (breakPatternsGo arr a b, limit - 1) else (arr, limit)
  let ph := choosePivotGo less ab.1 a b
  let rh :=
    if ph.2 = Hint.decreasing then
      (reverseRangeGo ab.1 (b + 2) a (b - 1), (b - 1) - (ph.1 - a), Hint.increasing)
    else (ab.1, ph.1, ph.2)
  let pis :=
    if wb = true ∧ wp = true ∧ rh.2.2 = Hint.increasing then
      partialInsertionSortGo less rh.1 a b
    else (rh.1, false)
  (pis.1, ab.2, rh.2.1, pis.2)

/-- Model of `pdqsort_func(data, a, b, limit)`.  One unit of fuel is one
iteration of the outer `for` loop or one nested recursive call; fresh
recursive calls reset `wasBalanced`/`wasPartitioned` to `true`, while a
loop iteration (`continue`) carries them over, exactly as the local
variables do in the source. -/
def pdqsortGo (less : α → α → Bool) :
    Array α → Nat → Nat → Nat → Nat → Bool → Bool → Array α
  | arr, 0, _, _, _, _, _ => arr
  | arr, fuel + 1, a, b, limit, wasBalanced, wasPartitioned =>
    let length := b - a
    if length ≤ 12 then insertionSortGo less arr a b
    else if limit = 0 then heapSortGo less arr a b
    else
      let pre := pdqPrelude less arr a b limit wasBalanced wasPartitioned
      let arr3 := pre.1
      let limit1 := pre.2.1
      let pivot := pre.2.2.1
      if pre.2.2.2 = true then arr3
      else if 0 < a ∧ ¬ (lessAt less arr3 (a - 1) pivot = true) then
        let pe := partitionEqualGo less arr3 a b pivot
        pdqsortGo less pe.1 fuel pe.2 b limit1 wasBalanced wasPartitioned
      else
        let pr := partitionGo less arr3 a b pivot
        let mid := pr.2.1
        let newBalanced := decide (min (mid - a) (b - mid) ≥ length / 8)
        if mid - a < b - mid then
          pdqsortGo less (pdqsortGo less pr.1 fuel a mid limit1 true true) fuel
            (mid + 1) b limit1 newBalanced pr.2.2
        else
          pdqsortGo less (pdqsortGo less pr.1 fuel (mid + 1) b limit1 true true) fuel
            a mid limit1 newBalanced pr.2.2

/-- Model of `sort.Slice(x, less)`: `limit = bits.Len(uint(n))`; the fuel
dominates the run length of every actual invocation (the permutation
lemmas below hold for any fuel). -/
def goSortSlice (less : α → α → Bool) (l : List α) : List α :=
  (pdqsortGo less l.toArray (2 * l.length + 64) 0 l.length (bitsLen l.length) true true).toList

/-! Analytics (`computeKPIs` and its helpers). -/

/-- Key/value pair with a numeric value (`type KVf`). -/
structure KVf where
  key : String
  value : ℚ
  deriving DecidableEq, Repr

/-- One point of the daily revenue series (`type KVt`). -/
structure KVt where
  day : GoTime
  value : ℚ
  deriving DecidableEq, Repr

/-- One detected anomaly (`type Anomaly`).  The source stores the float
`Z = (Value-mean)/math.Sqrt(var)`; the embedding stores the exact pair
`(zNum, zVar) = (Value-mean, var)` that determines it, so `Z` is the real
number `zNum / √zVar` (see `zscoreR` and the `zsq_*` bridge lemmas). -/
structure Anomaly where
  day : GoTime
  value : ℚ
  zNum : ℚ
  zVar : ℚ
  deriving DecidableEq, Repr

/-- The real-valued z-score represented by an exact pair: `num / √var`. -/
noncomputable def zscoreOf (num varv : ℚ) : ℝ := (num : ℝ) / Real.sqrt (varv : ℝ)

/-- Sum of the daily values, as the `for _, x := range d { sum += x.Value }`
loop computes it. -/
def sumVals (d : List KVt) : ℚ := d.foldl (fun s x => s + x.value) 0

/-- The mean of the daily series (`sum / float64(len(d))`). -/
def meanQ (d : List KVt) : ℚ := sumVals d / (d.length : ℚ)

/-- The sum of squared deviations (`ss` in the source). -/
def ssQ (d : List KVt) (mean : ℚ) : ℚ :=
  d.foldl (fun s x => s + (x.value - mean) * (x.value - mean)) 0

/-- The population variance `ss / float64(len(d))`; the source's `std` is
its square root, so `std == 0` iff `varQ = 0` and `|z| >= 2` iff
`4·var ≤ (value-mean)²` (lemmas `zsq_abs_ge_two_iff` etc. below). -/
def varQ (d : List KVt) : ℚ := ssQ d (meanQ d) / (d.length : ℚ)

/-- The flag condition of `detectAnomalies`: `math.Abs(z) >= 2.0`,
expressed square-free over the exact data. -/
def anomFlag (mean varv : ℚ) (x : KVt) : Bool :=
  decide (4 * varv ≤ (x.value - mean) * (x.value - mean))

/-- The anomaly record built for a flagged day (`Anomaly{Day: x.Day,
Value: x.Value, Z: z}`, with `z` stored as the exact pair). -/
def mkAnomaly (mean varv : ℚ) (x : KVt) : Anomaly := ⟨x.day, x.value, x.value - mean, varv⟩

/-- Model of `detectAnomalies(d)`. -/
def detectAnomalies (d : List KVt) : List Anomaly :=
  if d.length < 7 then []
  else
    let mean := meanQ d
    let varv := varQ d
    if varv = 0 then []
    else d.filterMap (fun x =>
      if anomFlag mean varv x then some (mkAnomaly mean varv x) else none)

/-- Model of `forecast7(d)`: trailing moving average over
`window = min(7, len(d))` days, projected over seven days; the window sum
is written as the source's index loop `for i := len(d)-window; i < len(d)`. -/
def forecast7 (d : List KVt) : ℚ :=
  if d.length = 0 then 0
  else
    let window := if d.length < 7 then d.length else 7
    let start := d.length - window
    let sum := (List.range window).foldl
      (fun s j => s + (d.getD (start + j) ⟨goTimeZero, 0⟩).value) 0
    sum / (window : ℚ) * 7

/-- The recommendation messages of `suggestions`, one constructor per
`fmt.Sprintf` template in the source (the rendered text carries exactly
the cited data). -/
inductive Suggestion where
  | dunning (count : ℕ) (total : ℚ)
  | bundleTiers
  | loyalty (tops : List KVf)
  | doubleDown (tops : List KVf)
  | dip (day : GoTime) (zNum zVar : ℚ)
  | spike (day : GoTime) (zNum zVar : ℚ)
  | steady
  deriving DecidableEq, Repr

/-- The float test `an.Z < -2` on the stored exact pair: the real number
`zNum/√zVar` is below `-2` iff `zNum < 0` and `zNum² > 4·zVar`
(lemma `zsq_lt_neg_two_iff`). -/
def zLtNegTwo (a : Anomaly) : Bool :=
  decide (a.zNum < 0 ∧ 4 * a.zVar < a.zNum * a.zNum)

/-- The float test `an.Z > 2` on the stored exact pair
(lemma `zsq_gt_two_iff`). -/
def zGtTwo (a : Anomaly) : Bool :=
  decide (0 < a.zNum ∧ 4 * a.zVar < a.zNum * a.zNum)

/-- The per-anomaly message of the `for _, an := range anoms` loop:
a dip message for `z < -2`, a spike message for `z > 2`, nothing
otherwise. -/
def anomalyMsg (a : Anomaly) : Option Suggestion :=
  if zLtNegTwo a then some (.dip a.day a.zNum a.zVar)
  else if zGtTwo a then some (.spike a.day a.zNum a.zVar)
  else none

/-- Model of `suggestions(total, aov, overdueCount, overdueTotal, topC,
topP, anoms)`; the appends follow the source's rule order. -/
def suggestions (total aov : ℚ) (overdueCount : ℕ) (overdueTotal : ℚ)
    (topC topP : List KVf) (anoms : List Anomaly) : List Suggestion :=
  (if overdueCount > 0 then [Suggestion.dunning overdueCount overdueTotal] else [])
    ++ (if aov < 50 then [Suggestion.bundleTiers] else [])
    ++ (if topC.length > 0 then [Suggestion.loyalty topC] else [])
    ++ (if topP.length > 0 then [Suggestion.doubleDown topP] else [])
    ++ anoms.filterMap anomalyMsg
    ++ (if 0 < total ∧ 0 < aov ∧ overdueCount = 0 ∧ anoms.length = 0 then
          [Suggestion.steady] else [])

/-- The overdue heuristic of `computeKPIs`:
`strings.Contains(s.Status, "overdue") || … "unpaid" || … "due"`. -/
def overdueB (s : Sale) : Bool :=
  goContainsStr s.status "overdue" || goContainsStr s.status "unpaid"
    || goContainsStr s.status "due"

/-- Add `v` to the entry under `k`, appending a fresh entry when absent:
the effect of `m[k] += v` on a Go map, with insertion-order enumeration. -/
def upsertAdd (m : List (String × ℚ)) (k : String) (v : ℚ) : List (String × ℚ) :=
  match m with
  | [] => [(k, v)]
  | (k', v') :: rest => if k' = k then (k', v' + v) :: rest else (k', v') :: upsertAdd rest k v

/-- Record membership in a Go `map[string]bool` used as a set. -/
def insertNew (m : List String) (k : String) : List String :=
  if k ∈ m then m else m ++ [k]

/-- Go's `2006-01-02` formatting of a time's wall-clock date (the daily
bucket key of `computeKPIs`). -/
def formatDay (t : GoTime) : String := ⟨pad4 t.year ++ '-' :: pad2 t.month ++ '-' :: pad2 t.day⟩

/-- Accumulators of the main `for _, s := range sales` loop. -/
structure AggState where
  total : ℚ
  orders : ℕ
  byCustomer : List (String × ℚ)
  byProduct : List (String × ℚ)
  customers : List String
  dr : List (String × ℚ)
  overdueCount : ℕ
  overdueTotal : ℚ
  deriving Repr

/-- Initial (zero) accumulators. -/
def aggInit : AggState := ⟨0, 0, [], [], [], [], 0, 0⟩

/-- One iteration of the aggregation loop. -/
def aggStep (st : AggState) (s : Sale) : AggState :=
  { total := st.total + s.amount
    orders := st.orders + 1
    byCustomer := upsertAdd st.byCustomer s.customer s.amount
    byProduct := upsertAdd st.byProduct s.product s.amount
    customers := insertNew st.customers s.customer
    dr := upsertAdd st.dr (formatDay s.date) s.amount
    overdueCount := st.overdueCount + (if overdueB s then 1 else 0)
    overdueTotal := st.overdueTotal + (if overdueB s then s.amount else 0) }

/-- Model of `topN(m, n)`: Go enumerates the map (insertion order here)
and sorts by value descending with the same unstable `sort.Slice`. -/
def topN (m : List (String × ℚ)) (n : ℕ) : List KVf :=
  (goSortSlice (fun x y => decide (y.value < x.value))
    (m.map (fun p => KVf.mk p.1 p.2))).take n

/-- Insert an ISO week into a customer's week set (`m[s.Customer][w] = true`). -/
def insWeek (c : String) (w : ℤ × ℤ) :
    List (String × List (ℤ × ℤ)) → List (String × List (ℤ × ℤ))
  | [] => [(c, [w])]
  | (c', ws) :: rest =>
    if c' = c then (c', if w ∈ ws then ws else ws ++ [w]) :: rest
    else (c', ws) :: insWeek c w rest

/-- Weeks in which a customer appears: builds `map[string]map[wk]bool`. -/
def weekSets (sales : List Sale) : List (String × List (ℤ × ℤ)) :=
  sales.foldl (fun m s => insWeek s.customer (isoWeek s.date) m) []

/-- Model of `retentionRate(sales)`: fraction of customers seen in at
least two distinct ISO weeks. -/
def retentionRate (sales : List Sale) : ℚ :=
  let m := weekSets sales
  let retained := (m.filter (fun p => 2 ≤ p.2.length)).length
  if m.length = 0 then 0 else (retained : ℚ) / (m.length : ℚ)

/-- The report object (`type KPIs`); the optional AI summary is produced
by an external collaborator and stays empty in the core pipeline. -/
structure KPIs where
  fromT : GoTime
  toT : GoTime
  totalRevenue : ℚ
  avgOrderValue : ℚ
  orders : ℕ
  uniqueCustomers : ℕ
  topCustomers : List KVf
  topProducts : List KVf
  dailyRevenue : List KVt
  retentionRate : ℚ
  forecastNext7DaysTotal : ℚ
  anomalies : List Anomaly
  overdueCount : ℕ
  overdueTotal : ℚ
  suggestions : List Suggestion
  deriving Repr

/-- The zero report returned for an empty sale list (`KPIs{}`). -/
def kpisZero : KPIs :=
  ⟨goTimeZero, goTimeZero, 0, 0, 0, 0, [], [], [], 0, 0, [], 0, 0, []⟩

/-- The sort step opening `computeKPIs`:
`sort.Slice(sales, func(i,j) { sales[i].Date.Before(sales[j].Date) })`. -/
def sortSalesByDate (sales : List Sale) : List Sale :=
  goSortSlice (fun x y => timeBefore x.date y.date) sales

/-- Model of `computeKPIs(sales)`. -/
def computeKPIs (sales : List Sale) : KPIs :=
  if sales.length = 0 then kpisZero
  else
    let sorted := sortSalesByDate sales
    let fromT := (sorted.headD ⟨goTimeZero, "", "", 0, ""⟩).date
    let toT := (sorted.getLastD ⟨goTimeZero, "", "", 0, ""⟩).date
    let st := sorted.foldl aggStep aggInit
    let daily0 := st.dr.map (fun p => KVt.mk ((parseLayoutISO p.1.data).getD goTimeZero) p.2)
    let daily := goSortSlice (fun x y => timeBefore x.day y.day) daily0
    let topCust := topN st.byCustomer 5
    let topProd := topN st.byProduct 5
    let avgOrder := if st.orders > 0 then st.total / (st.orders : ℚ) else 0
    let retention := retentionRate sorted
    let anoms := detectAnomalies daily
    let fcast := forecast7 daily
    let sug := suggestions st.total avgOrder st.overdueCount st.overdueTotal topCust topProd anoms
    { fromT := fromT
      toT := toT
      totalRevenue := st.total
      avgOrderValue := avgOrder
      orders := st.orders
      uniqueCustomers := st.customers.length
      topCustomers := topCust
      topProducts := topProd
      dailyRevenue := daily
      retentionRate := retention
      forecastNext7DaysTotal := fcast
      anomalies := anoms
      overdueCount := st.overdueCount
      overdueTotal := st.overdueTotal
      suggestions := sug }

/-! Specification-side definitions and concrete example data used by the
claim theorems, witnesses and counterexamples. -/

/-- Modelled from the claim's words (C6), for comparison with the code's
`goCandidates`: the list "ISO date, day/month slash, month/day slash,
dot-separated, full timestamp" — without the code's `2006/01/02` layout. -/
def claimCandidates : List (List Char → Option GoTime) :=
  [parseLayoutISO, parseLayoutDM, parseLayoutMD, parseLayoutDot, parseLayoutRFC3339]

/-- Modelled from the claim's words (C6): `parseDateFlexible` as the claim
describes it, trying exactly `claimCandidates` and then the year-month
layout. -/
def parseDateFlexibleClaim (s : String) : GoTime :=
  let cs := goTrimChars s.data
  match firstParse claimCandidates cs with
  | some t => t
  | none =>
    match parseLayoutYM cs with
    | some t => t
    | none => goTimeZero

/-- A two-field slash date string `aa/bb/yyyy`. -/
def renderSlash (a b y : ℕ) : String := ⟨pad2 a ++ '/' :: pad2 b ++ '/' :: pad4 y⟩

/-- The six raw rows of the spec's end-to-end example, preceded by the
canonical header. -/
def exampleRows : List (List String) :=
  [["date", "customer", "product", "amount", "status"],
   ["2025-07-01", "Acme", "WidgetA", "199", "paid"],
   ["2025-07-01", "Acme", "WidgetB", "89", "paid"],
   ["2025-07-02", "Zen", "WidgetA", "199", "unpaid"],
   ["2025-07-03", "Atlas", "WidgetC", "349", "paid"],
   ["2025-07-04", "Zen", "WidgetA", "199", "overdue"],
   ["2025-07-05", "Acme", "WidgetA", "199", "paid"]]

/-- The normalized records of the spec's end-to-end example. -/
def exampleSales : List Sale :=
  [⟨⟨2025, 7, 1, 0, 0, 0, 0⟩, "Acme", "WidgetA", 199, "paid"⟩,
   ⟨⟨2025, 7, 1, 0, 0, 0, 0⟩, "Acme", "WidgetB", 89, "paid"⟩,
   ⟨⟨2025, 7, 2, 0, 0, 0, 0⟩, "Zen", "WidgetA", 199, "unpaid"⟩,
   ⟨⟨2025, 7, 3, 0, 0, 0, 0⟩, "Atlas", "WidgetC", 349, "paid"⟩,
   ⟨⟨2025, 7, 4, 0, 0, 0, 0⟩, "Zen", "WidgetA", 199, "overdue"⟩,
   ⟨⟨2025, 7, 5, 0, 0, 0, 0⟩, "Acme", "WidgetA", 199, "paid"⟩]

/-- A daily point of July 2025. -/
def julyPoint (d : ℕ) (v : ℚ) : KVt := ⟨⟨2025, 7, d, 0, 0, 0, 0⟩, v⟩

/-- A seven-point daily series with one clear outlier (witness data). -/
def series7 : List KVt :=
  [julyPoint 1 10, julyPoint 2 10, julyPoint 3 10, julyPoint 4 10,
   julyPoint 5 10, julyPoint 6 10, julyPoint 7 80]

/-- An eight-point daily series whose two outliers have z-scores exactly
`2` and `-2` (mean 5, variance 1): witness data for C10. -/
def seriesPM2 : List KVt :=
  [julyPoint 1 5, julyPoint 2 5, julyPoint 3 5, julyPoint 4 5,
   julyPoint 5 5, julyPoint 6 5, julyPoint 7 7, julyPoint 8 3]

/-- A sale of one unit on day `d` of July 2025 by customer `c`. -/
def julySale (d : ℕ) (c : String) : Sale := ⟨⟨2025, 7, d, 0, 0, 0, 0⟩, c, "P", 1, "paid"⟩

/-- Thirteen records over two days, alternating, labelled by customer:
long enough to force `sort.Slice` past its stable insertion-sort path. -/
def thirteenSales : List Sale :=
  [julySale 2 "c0", julySale 1 "c1", julySale 2 "c2", julySale 1 "c3",
   julySale 2 "c4", julySale 1 "c5", julySale 2 "c6", julySale 1 "c7",
   julySale 2 "c8", julySale 1 "c9", julySale 2 "c10", julySale 1 "c11",
   julySale 2 "c12"]

/-- Position of the record of customer `c` in a sale list. -/
def custIdx (l : List Sale) (c : String) : ℕ := l.findIdx (fun s => s.customer == c)

/-- Raw rows whose single data row has the parsable date `0001-01-01`
(counterexample data for C3). -/
def zeroDateRows : List (List String) := [["date"], ["0001-01-01"]]

/-- Sum of the values of a string-keyed accumulator map. -/
def valsSum (m : List (String × ℚ)) : ℚ := (m.map (fun p => p.2)).sum

/-- Sum of the amounts of a record list. -/
def sumAmounts (l : List Sale) : ℚ := (l.map (fun s => s.amount)).sum

/-- The overdue condition as the claims state it: the lower-cased status
contains one of the risk substrings. -/
def overdueClaim (s : Sale) : Bool :=
  goContainsStr (goToLower s.status) "overdue" || goContainsStr (goToLower s.status) "unpaid"
    || goContainsStr (goToLower s.status) "due"

/-- The logical field tokens looked up by `parseCSV`'s fuzzy `get`. -/
def keyTokens : List String := ["date", "customer", "product", "amount", "status"]

/-! Permutation invariance of the sort embedding: every mutation is a
swap, so every sorting routine permutes the slice. -/

theorem cons_set_perm (x : α) (t : List α) (m : Nat) (hm : m < t.length) :
    (t[m] :: t.set m x).Perm (x :: t) := by
  induction t generalizing m with
  | nil => simp at hm
  | cons y s ih =>
    cases m with
    | zero => simpa using List.Perm.swap x y s
    | succ m =>
      have hm' : m < s.length := by simpa using hm
      have h1 : (s[m] :: y :: s.set m x).Perm (y :: s[m] :: s.set m x) :=
        List.Perm.swap y (s[m]) _
      have h2 : (y :: s[m] :: s.set m x).Perm (y :: x :: s) := (ih m hm').cons y
      have h3 : (y :: x :: s).Perm (x :: y :: s) := List.Perm.swap x y s
      simpa using (h1.trans h2).trans h3

theorem set_set_swap_perm (l : List α) (i j : Nat) (hi : i < l.length) (hj : j < l.length) :
    ((l.set i l[j]).set j l[i]).Perm l := by
  induction l generalizing i j with
  | nil => simp at hi
  | cons a t ih =>
    cases i with
    | zero =>
      cases j with
      | zero => simp
      | succ j =>
        have hj' : j < t.length := by simpa using hj
        simpa using cons_set_perm a t j hj'
    | succ i =>
      cases j with
      | zero =>
        have hi' : i < t.length := by simpa using hi
        simpa using cons_set_perm a t i hi'
      | succ j =>
        have hi' : i < t.length := by simpa using hi
        have hj' : j < t.length := by simpa using hj
        simpa using (ih i j hi' hj').cons a

theorem aswap_perm (arr : Array α) (i j : Nat) : (aswap arr i j).toList.Perm arr.toList := by
  unfold aswap
  split
  case isTrue h =>
    have hi : i < arr.toList.length := by simpa using h.1
    have hj : j < arr.toList.length := by simpa using h.2
    simpa using set_set_swap_perm arr.toList i j hi hj
  case isFalse h => exact List.Perm.refl _

theorem foldlArr_perm {β : Type _} (f : Array α → β → Array α)
    (h : ∀ arr x, (f arr x).toList.Perm arr.toList) :
    ∀ (l : List β) (arr : Array α), ((l.foldl f arr).toList).Perm arr.toList := by
  intro l
  induction l with
  | nil => intro arr; simp
  | cons x xs ih => intro arr; exact (ih (f arr x)).trans (h arr x)

theorem insertInner_perm (less : α → α → Bool) (lo : Nat) :
    ∀ (j : Nat) (arr : Array α), (insertInner less lo arr j).toList.Perm arr.toList := by
  intro j
  induction j with
  | zero => intro arr; simp [insertInner]
  | succ j ih =>
    intro arr
    rw [insertInner]
    split
    · exact (ih _).trans (aswap_perm _ _ _)
    · exact List.Perm.refl _

theorem insertionSortGo_perm (less : α → α → Bool) (arr : Array α) (a b : Nat) :
    (insertionSortGo less arr a b).toList.Perm arr.toList :=
  foldlArr_perm _ (fun arr i => insertInner_perm less a i arr) _ arr

theorem siftDownGo_perm (less : α → α → Bool) (first : Nat) :
    ∀ (fuel : Nat) (arr : Array α) (root hi : Nat),
      (siftDownGo less first arr fuel root hi).toList.Perm arr.toList := by
  intro fuel
  induction fuel with
  | zero => intro arr root hi; simp [siftDownGo]
  | succ fuel ih =>
    intro arr root hi
    rw [siftDownGo]
    dsimp only []
    repeat' split
    all_goals
      first
        | exact List.Perm.refl _
        | exact (ih _ _ _).trans (aswap_perm _ _ _)

theorem heapSortGo_perm (less : α → α → Bool) (arr : Array α) (a b : Nat) :
    (heapSortGo less arr a b).toList.Perm arr.toList := by
  unfold heapSortGo
  dsimp only []
  exact (foldlArr_perm _
      (fun acc i => (siftDownGo_perm less a _ _ 0 i).trans (aswap_perm _ _ _)) _ _).trans
    (foldlArr_perm _ (fun acc i => siftDownGo_perm less a _ acc i (b - a)) _ arr)

theorem reverseRangeGo_perm :
    ∀ (fuel : Nat) (arr : Array α) (i j : Nat),
      (reverseRangeGo arr fuel i j).toList.Perm arr.toList := by
  intro fuel
  induction fuel with
  | zero => intro arr i j; simp [reverseRangeGo]
  | succ fuel ih =>
    intro arr i j
    rw [reverseRangeGo]
    split
    · exact (ih _ _ _).trans (aswap_perm _ _ _)
    · exact List.Perm.refl _

theorem breakPatternsGo_perm (arr : Array α) (a b : Nat) :
    (breakPatternsGo arr a b).toList.Perm arr.toList := by
  unfold breakPatternsGo
  dsimp only []
  split
  · exact (aswap_perm _ _ _).trans ((aswap_perm _ _ _).trans (aswap_perm _ _ _))
  · exact List.Perm.refl _

theorem partitionLoop_perm (less : α → α → Bool) (lo advFuel : Nat) :
    ∀ (fuel : Nat) (arr : Array α) (i j : Nat),
      (partitionLoop less lo advFuel arr fuel i j).1.toList.Perm arr.toList := by
  intro fuel
  induction fuel with
  | zero => intro arr i j; simp [partitionLoop]
  | succ fuel ih =>
    intro arr i j
    rw [partitionLoop]
    split
    · exact List.Perm.refl _
    · exact (ih _ _ _).trans (aswap_perm _ _ _)

theorem partitionGo_perm (less : α → α → Bool) (arr : Array α) (a b pivot : Nat) :
    (partitionGo less arr a b pivot).1.toList.Perm arr.toList := by
  unfold partitionGo
  dsimp only []
  split
  · exact (aswap_perm _ _ _).trans (aswap_perm _ _ _)
  · exact (aswap_perm _ _ _).trans
      ((partitionLoop_perm less a _ _ _ _ _).trans
        ((aswap_perm _ _ _).trans (aswap_perm _ _ _)))

theorem partitionEqualLoop_perm (less : α → α → Bool) (lo advFuel : Nat) :
    ∀ (fuel : Nat) (arr : Array α) (i j : Nat),
      (partitionEqualLoop less lo advFuel arr fuel i j).1.toList.Perm arr.toList := by
  intro fuel
  induction fuel with
  | zero => intro arr i j; simp [partitionEqualLoop]
  | succ fuel ih =>
    intro arr i j
    rw [partitionEqualLoop]
    split
    · exact List.Perm.refl _
    · exact (ih _ _ _).trans (aswap_perm _ _ _)

theorem partitionEqualGo_perm (less : α → α → Bool) (arr : Array α) (a b pivot : Nat) :
    (partitionEqualGo less arr a b pivot).1.toList.Perm arr.toList :=
  (partitionEqualLoop_perm less a _ _ _ _ _).trans (aswap_perm _ _ _)

theorem shiftLeftLoop_perm (less : α → α → Bool) :
    ∀ (j : Nat) (arr : Array α), (shiftLeftLoop less arr j).toList.Perm arr.toList := by
  intro j
  induction j with
  | zero => intro arr; simp [shiftLeftLoop]
  | succ j ih =>
    intro arr
    rw [shiftLeftLoop]
    split
    · exact (ih _).trans (aswap_perm _ _ _)
    · exact List.Perm.refl _

theorem shiftRightLoop_perm (less : α → α → Bool) (b : Nat) :
    ∀ (fuel : Nat) (arr : Array α) (j : Nat),
      (shiftRightLoop less b arr fuel j).toList.Perm arr.toList := by
  intro fuel
  induction fuel with
  | zero => intro arr j; simp [shiftRightLoop]
  | succ fuel ih =>
    intro arr j
    rw [shiftRightLoop]
    split
    · exact (ih _ _).trans (aswap_perm _ _ _)
    · exact List.Perm.refl _

theorem partialInsertionSortLoop_perm (less : α → α → Bool) (a b : Nat) :
    ∀ (steps : Nat) (arr : Array α) (i : Nat),
      (partialInsertionSortLoop less a b arr steps i).1.toList.Perm arr.toList := by
  intro steps
  induction steps with
  | zero => intro arr i; simp [partialInsertionSortLoop]
  | succ steps ih =>
    intro arr i
    rw [partialInsertionSortLoop]
    dsimp only []
    repeat' split
    all_goals
      first
        | exact List.Perm.refl _
        | exact (ih _ _).trans
            ((shiftRightLoop_perm _ _ _ _ _).trans
              ((shiftLeftLoop_perm _ _ _).trans (aswap_perm _ _ _)))
        | exact (ih _ _).trans ((shiftRightLoop_perm _ _ _ _ _).trans (aswap_perm _ _ _))
        | exact (ih _ _).trans ((shiftLeftLoop_perm _ _ _).trans (aswap_perm _ _ _))
        | exact (ih _ _).trans (aswap_perm _ _ _)

theorem partialInsertionSortGo_perm (less : α → α → Bool) (arr : Array α) (a b : Nat) :
    (partialInsertionSortGo less arr a b).1.toList.Perm arr.toList :=
  partialInsertionSortLoop_perm less a b 5 arr (a + 1)

theorem pdqPrelude_perm (less : α → α → Bool) (arr : Array α) (a b limit : Nat) (wb wp : Bool) :
    (pdqPrelude less arr a b limit wb wp).1.toList.Perm arr.toList := by
  unfold pdqPrelude
  dsimp only []
  repeat' split
  all_goals
    first
      | exact List.Perm.refl _
      | exact breakPatternsGo_perm _ _ _
      | exact (reverseRangeGo_perm _ _ _ _).trans (breakPatternsGo_perm _ _ _)
      | exact (partialInsertionSortGo_perm _ _ _ _).trans
          ((reverseRangeGo_perm _ _ _ _).trans (breakPatternsGo_perm _ _ _))
      | exact (partialInsertionSortGo_perm _ _ _ _).trans (breakPatternsGo_perm _ _ _)
      | exact (partialInsertionSortGo_perm _ _ _ _).trans (reverseRangeGo_perm _ _ _ _)
      | exact partialInsertionSortGo_perm _ _ _ _
      | exact reverseRangeGo_perm _ _ _ _

theorem pdqsortGo_perm (less : α → α → Bool) :
    ∀ (fuel : Nat) (arr : Array α) (a b limit : Nat) (wb wp : Bool),
      (pdqsortGo less arr fuel a b limit wb wp).toList.Perm arr.toList := by
  intro fuel
  induction fuel with
  | zero => intro arr a b limit wb wp; simp [pdqsortGo]
  | succ fuel ih =>
    intro arr a b limit wb wp
    rw [pdqsortGo]
    dsimp only []
    have hpre := pdqPrelude_perm less arr a b limit wb wp
    split
    · exact insertionSortGo_perm _ _ _ _
    · split
      · exact heapSortGo_perm _ _ _ _
      · split
        · exact hpre
        · split
          · exact (ih _ _ _ _ _ _).trans ((partitionEqualGo_perm _ _ _ _ _).trans hpre)
          · split
            · exact (ih _ _ _ _ _ _).trans
                ((ih _ _ _ _ _ _).trans ((partitionGo_perm _ _ _ _ _).trans hpre))
            · exact (ih _ _ _ _ _ _).trans
                ((ih _ _ _ _ _ _).trans ((partitionGo_perm _ _ _ _ _).trans hpre))

theorem goSortSlice_perm (less : α → α → Bool) (l : List α) :
    (goSortSlice less l).Perm l := by
  simpa using pdqsortGo_perm less (2 * l.length + 64) l.toArray 0 l.length (bitsLen l.length) true true

/-! Bridges between the exact square-free comparisons used by the
embedding and the real-number z-score comparisons the floats compute. -/

theorem zsq_abs_ge_two_iff (num varv : ℚ) (h : 0 < varv) :
    2 ≤ |zscoreOf num varv| ↔ 4 * varv ≤ num * num := by
  unfold zscoreOf
  have hv : (0 : ℝ) < (varv : ℝ) := by exact_mod_cast h
  have hs : 0 < Real.sqrt (varv : ℝ) := Real.sqrt_pos.mpr hv
  have hss : Real.sqrt (varv : ℝ) * Real.sqrt (varv : ℝ) = (varv : ℝ) :=
    Real.mul_self_sqrt hv.le
  rw [abs_div, abs_of_pos hs, le_div_iff₀ hs]
  constructor
  · intro h2
    have h4 : 4 * (varv : ℝ) ≤ (num : ℝ) * (num : ℝ) := by
      nlinarith [abs_nonneg (num : ℝ), abs_mul_abs_self (num : ℝ)]
    exact_mod_cast h4
  · intro h4
    have h4' : 4 * (varv : ℝ) ≤ (num : ℝ) * (num : ℝ) := by exact_mod_cast h4
    nlinarith [abs_nonneg (num : ℝ), abs_mul_abs_self (num : ℝ)]

theorem zsq_lt_neg_two_iff (num varv : ℚ) (h : 0 < varv) :
    zscoreOf num varv < -2 ↔ (num < 0 ∧ 4 * varv < num * num) := by
  unfold zscoreOf
  have hv : (0 : ℝ) < (varv : ℝ) := by exact_mod_cast h
  have hs : 0 < Real.sqrt (varv : ℝ) := Real.sqrt_pos.mpr hv
  have hss : Real.sqrt (varv : ℝ) * Real.sqrt (varv : ℝ) = (varv : ℝ) :=
    Real.mul_self_sqrt hv.le
  rw [div_lt_iff₀ hs]
  constructor
  · intro h2
    have hneg : (num : ℝ) < 0 := by nlinarith
    have h4 : 4 * (varv : ℝ) < (num : ℝ) * (num : ℝ) := by nlinarith
    exact ⟨by exact_mod_cast hneg, by exact_mod_cast h4⟩
  · rintro ⟨hneg, h4⟩
    have hneg' : (num : ℝ) < 0 := by exact_mod_cast hneg
    have h4' : 4 * (varv : ℝ) < (num : ℝ) * (num : ℝ) := by exact_mod_cast h4
    nlinarith

theorem zsq_gt_two_iff (num varv : ℚ) (h : 0 < varv) :
    2 < zscoreOf num varv ↔ (0 < num ∧ 4 * varv < num * num) := by
  unfold zscoreOf
  have hv : (0 : ℝ) < (varv : ℝ) := by exact_mod_cast h
  have hs : 0 < Real.sqrt (varv : ℝ) := Real.sqrt_pos.mpr hv
  have hss : Real.sqrt (varv : ℝ) * Real.sqrt (varv : ℝ) = (varv : ℝ) :=
    Real.mul_self_sqrt hv.le
  rw [lt_div_iff₀ hs]
  constructor
  · intro h2
    have hpos : (0 : ℝ) < (num : ℝ) := by nlinarith
    have h4 : 4 * (varv : ℝ) < (num : ℝ) * (num : ℝ) := by nlinarith
    exact ⟨by exact_mod_cast hpos, by exact_mod_cast h4⟩
  · rintro ⟨hpos, h4⟩
    have hpos' : (0 : ℝ) < (num : ℝ) := by exact_mod_cast hpos
    have h4' : 4 * (varv : ℝ) < (num : ℝ) * (num : ℝ) := by exact_mod_cast h4
    nlinarith

/-! List accumulation helpers. -/

theorem foldl_add_eq {γ : Type _} (f : γ → ℚ) :
    ∀ (l : List γ) (c : ℚ), l.foldl (fun s x => s + f x) c = c + (l.map f).sum := by
  intro l
  induction l with
  | nil => intro c; simp
  | cons x xs ih => intro c; simp [ih]; ring

theorem sumVals_eq (d : List KVt) : sumVals d = (d.map (fun x => x.value)).sum := by
  simpa using foldl_add_eq (fun x : KVt => x.value) d 0

theorem ssQ_nonneg (d : List KVt) (mean : ℚ) : 0 ≤ ssQ d mean := by
  unfold ssQ
  rw [show (fun (s : ℚ) (x : KVt) => s + (x.value - mean) * (x.value - mean)) =
      (fun s x => s + (fun y : KVt => (y.value - mean) * (y.value - mean)) x) from rfl,
    foldl_add_eq]
  have : 0 ≤ (d.map (fun y : KVt => (y.value - mean) * (y.value - mean))).sum := by
    apply List.sum_nonneg
    intro q hq
    rcases List.mem_map.mp hq with ⟨y, _, rfl⟩
    exact mul_self_nonneg _
  linarith

theorem varQ_nonneg (d : List KVt) : 0 ≤ varQ d := by
  unfold varQ
  have h1 : 0 ≤ ssQ d (meanQ d) := ssQ_nonneg d (meanQ d)
  have h2 : (0 : ℚ) ≤ (d.length : ℚ) := by positivity
  positivity

theorem filterMap_if_eq_filter_map {γ δ : Type _} (p : γ → Bool) (f : γ → δ) :
    ∀ l : List γ,
      l.filterMap (fun x => if p x then some (f x) else none) = (l.filter p).map f := by
  intro l
  induction l with
  | nil => simp
  | cons x xs ih =>
    by_cases hx : p x <;> simp [List.filterMap_cons, List.filter_cons, hx, ih]

theorem find_eq_of_perm_of_unique {γ : Type _} (q : γ → Bool) {l₁ l₂ : List γ}
    (hp : l₁.Perm l₂)
    (uniq : ∀ x ∈ l₁, ∀ y ∈ l₁, q x → q y → x = y) :
    l₁.find? q = l₂.find? q := by
  rcases h1 : l₁.find? q with _ | x
  · rcases h2 : l₂.find? q with _ | y
    · rfl
    · exfalso
      have hy : y ∈ l₂ ∧ q y := ⟨List.mem_of_find?_eq_some h2, List.find?_some h2⟩
      have : ∀ x ∈ l₁, ¬ (q x = true) := by
        intro x hx
        exact by simpa using List.find?_eq_none.mp h1 x hx
      exact this y (hp.mem_iff.mpr hy.1) hy.2
  · have hx : x ∈ l₁ ∧ q x := ⟨List.mem_of_find?_eq_some h1, List.find?_some h1⟩
    rcases h2 : l₂.find? q with _ | y
    · exfalso
      have : ∀ z ∈ l₂, ¬ (q z = true) := by
        intro z hz
        exact by simpa using List.find?_eq_none.mp h2 z hz
      exact this x (hp.mem_iff.mp hx.1) hx.2
    · have hy : y ∈ l₂ ∧ q y := ⟨List.mem_of_find?_eq_some h2, List.find?_some h2⟩
      have := uniq x hx.1 y (hp.mem_iff.mpr hy.1) hx.2 hy.2
      rw [this]

theorem valsSum_upsertAdd (m : List (String × ℚ)) (k : String) (v : ℚ) :
    valsSum (upsertAdd m k v) = valsSum m + v := by
  induction m with
  | nil => simp [upsertAdd, valsSum]
  | cons p rest ih =>
    rcases p with ⟨k', v'⟩
    by_cases hk : k' = k <;> simp [upsertAdd, hk, valsSum] at ih ⊢ <;> linarith

theorem filterMap_congr_mem {γ δ : Type _} {f g : γ → Option δ} :
    ∀ {l : List γ}, (∀ a ∈ l, f a = g a) → l.filterMap f = l.filterMap g := by
  intro l
  induction l with
  | nil => intro _; rfl
  | cons x xs ih =>
    intro h
    rw [List.filterMap_cons, List.filterMap_cons, h x (by simp),
      ih (fun a ha => h a (by simp [ha]))]

/-! Invariants of the aggregation fold of `computeKPIs`. -/

theorem foldl_aggStep_total :
    ∀ (l : List Sale) (st : AggState), (l.foldl aggStep st).total = st.total + sumAmounts l := by
  intro l
  induction l with
  | nil => intro st; simp [sumAmounts]
  | cons s xs ih =>
    intro st
    rw [List.foldl_cons, ih]
    simp [aggStep, sumAmounts]
    ring

theorem foldl_aggStep_orders :
    ∀ (l : List Sale) (st : AggState), (l.foldl aggStep st).orders = st.orders + l.length := by
  intro l
  induction l with
  | nil => intro st; simp
  | cons s xs ih =>
    intro st
    rw [List.foldl_cons, ih]
    simp [aggStep]
    omega

theorem foldl_aggStep_overdueCount :
    ∀ (l : List Sale) (st : AggState),
      (l.foldl aggStep st).overdueCount = st.overdueCount + l.countP overdueB := by
  intro l
  induction l with
  | nil => intro st; simp
  | cons s xs ih =>
    intro st
    rw [List.foldl_cons, ih, List.countP_cons]
    by_cases hs : overdueB s
    · simp [aggStep, hs]
      omega
    · simp [aggStep, hs]

theorem foldl_aggStep_overdueTotal :
    ∀ (l : List Sale) (st : AggState),
      (l.foldl aggStep st).overdueTotal
        = st.overdueTotal + ((l.filter overdueB).map (fun s => s.amount)).sum := by
  intro l
  induction l with
  | nil => intro st; simp
  | cons s xs ih =>
    intro st
    rw [List.foldl_cons, ih, List.filter_cons]
    by_cases hs : overdueB s
    · simp [aggStep, hs]
      ring
    · simp [aggStep, hs]

theorem foldl_aggStep_drSum :
    ∀ (l : List Sale) (st : AggState),
      valsSum (l.foldl aggStep st).dr = valsSum st.dr + sumAmounts l := by
  intro l
  induction l with
  | nil => intro st; simp [sumAmounts]
  | cons s xs ih =>
    intro st
    rw [List.foldl_cons, ih]
    show valsSum (upsertAdd st.dr (formatDay s.date) s.amount) + sumAmounts xs = _
    rw [valsSum_upsertAdd]
    simp [sumAmounts]
    ring

/-! Helpers for the forecast window sum and the suggestion rules. -/

theorem range_map_getD_eq_drop {γ : Type _} (l : List γ) (d0 : γ) (start : Nat)
    (h : start ≤ l.length) :
    (List.range (l.length - start)).map (fun j => l.getD (start + j) d0) = l.drop start := by
  apply List.ext_getElem
  · simp
  · intro i h1 h2
    simp only [List.getElem_map, List.getElem_range, List.getElem_drop]
    have hlt : start + i < l.length := by
      simp at h1
      omega
    simp [List.getD_eq_getElem?_getD, List.getElem?_eq_getElem hlt]

theorem steady_not_mem_anomalyMsgs (anoms : List Anomaly) :
    Suggestion.steady ∉ anoms.filterMap anomalyMsg := by
  intro h
  rcases List.mem_filterMap.mp h with ⟨a, _, ha⟩
  unfold anomalyMsg at ha
  split at ha
  · simp at ha
  · split at ha <;> simp at ha

/-! The claim theorems. -/

/-- C1: `detectAnomalies` returns no anomalies for series shorter than 7
points and for series with zero population standard deviation (zero
variance); otherwise it keeps exactly the days flagged by `anomFlag`, in
input day order (a filter of the series), and `anomFlag` holds of a day
iff the real z-score `(value − mean)/√variance` satisfies `|z| ≥ 2`. -/
theorem C1_detectAnomalies_spec (d : List KVt) :
    (d.length < 7 → detectAnomalies d = []) ∧
    (varQ d = 0 → detectAnomalies d = []) ∧
    (7 ≤ d.length → varQ d ≠ 0 →
      detectAnomalies d
          = (d.filter (anomFlag (meanQ d) (varQ d))).map (mkAnomaly (meanQ d) (varQ d)) ∧
        ∀ x ∈ d, anomFlag (meanQ d) (varQ d) x = true
          ↔ 2 ≤ |zscoreOf (x.value - meanQ d) (varQ d)|) := by
  refine ⟨fun h => by simp [detectAnomalies, h], fun h => ?_, fun hlen hvar => ?_⟩
  · unfold detectAnomalies
    split
    · rfl
    · simp [h]
  · have hpos : 0 < varQ d := lt_of_le_of_ne (varQ_nonneg d) (Ne.symm hvar)
    constructor
    · unfold detectAnomalies
      rw [if_neg (by omega), if_neg hvar]
      exact filterMap_if_eq_filter_map _ _ d
    · intro x _
      unfold anomFlag
      rw [decide_eq_true_iff (p := 4 * varQ d ≤ (x.value - meanQ d) * (x.value - meanQ d))]
      exact (zsq_abs_ge_two_iff (x.value - meanQ d) (varQ d) hpos).symm

/-- Witness for C1 at the concrete series `series7` (seven points, one
outlier): its hypotheses hold and the theorem's conclusion follows for
the outlier day. -/
theorem C1_witness :
    7 ≤ series7.length ∧ varQ series7 ≠ 0 ∧
      detectAnomalies series7
        = (series7.filter (anomFlag (meanQ series7) (varQ series7))).map
            (mkAnomaly (meanQ series7) (varQ series7)) ∧
      (anomFlag (meanQ series7) (varQ series7) (julyPoint 7 80) = true
        ↔ 2 ≤ |zscoreOf ((julyPoint 7 80).value - meanQ series7) (varQ series7)|) := by
  have h := C1_detectAnomalies_spec series7
  have hlen : 7 ≤ series7.length := by decide
  have hvar : varQ series7 ≠ 0 := by with_unfolding_all decide
  exact ⟨hlen, hvar, (h.2.2 hlen hvar).1,
    (h.2.2 hlen hvar).2 (julyPoint 7 80) (by with_unfolding_all decide)⟩

/-- C5: the forecast is the trailing `min(7, N)`-day average times 7 for a
non-empty daily series, and 0 for the empty series. -/
theorem C5_forecast7_spec :
    forecast7 [] = 0 ∧
    ∀ d : List KVt, d ≠ [] →
      forecast7 d
        = ((d.drop (d.length - min 7 d.length)).map (fun x => x.value)).sum
            / ((min 7 d.length : ℕ) : ℚ) * 7 := by
  constructor
  · rfl
  · intro d hd
    have hlen : d.length ≠ 0 := by simpa using fun h => hd (List.eq_nil_of_length_eq_zero h)
    unfold forecast7
    rw [if_neg hlen]
    dsimp only []
    have hwin : (if d.length < 7 then d.length else 7) = min 7 d.length := by
      rcases lt_or_ge d.length 7 with h | h
      · simp [h, Nat.min_eq_right h.le]
      · simp [Nat.not_lt.mpr h, Nat.min_eq_left h]
    rw [hwin]
    have hstart : d.length - min 7 d.length ≤ d.length := Nat.sub_le _ _
    rw [foldl_add_eq (fun j => (d.getD (d.length - min 7 d.length + j) ⟨goTimeZero, 0⟩).value)]
    have hw : d.length - (d.length - min 7 d.length) = min 7 d.length := by omega
    rw [show (List.range (min 7 d.length)).map
          (fun j => (d.getD (d.length - min 7 d.length + j) ⟨goTimeZero, 0⟩).value)
        = ((List.range (d.length - (d.length - min 7 d.length))).map
            (fun j => d.getD (d.length - min 7 d.length + j) ⟨goTimeZero, 0⟩)).map
              (fun x => x.value) by rw [hw, List.map_map]; rfl,
      range_map_getD_eq_drop d ⟨goTimeZero, 0⟩ _ hstart]
    simp

/-- Witness for C5 at the concrete series `series7`. -/
theorem C5_witness :
    series7 ≠ [] ∧
      forecast7 series7
        = ((series7.drop (series7.length - min 7 series7.length)).map (fun x => x.value)).sum
            / ((min 7 series7.length : ℕ) : ℚ) * 7 :=
  ⟨by decide, C5_forecast7_spec.2 series7 (by decide)⟩

/-- C8: the values of the daily revenue series sum to the report's total
revenue, for every record list. -/
theorem C8_daily_sums_to_total (sales : List Sale) :
    ((computeKPIs sales).dailyRevenue.map (fun x => x.value)).sum
      = (computeKPIs sales).totalRevenue := by
  by_cases h : sales.length = 0
  · simp [computeKPIs, h, kpisZero]
  · rw [computeKPIs, if_neg h]
    dsimp only []
    have hperm := goSortSlice_perm (fun x y => timeBefore x.day y.day)
      (((sortSalesByDate sales).foldl aggStep aggInit).dr.map
        (fun p => KVt.mk ((parseLayoutISO p.1.data).getD goTimeZero) p.2))
    rw [(hperm.map (fun x => x.value)).sum_eq, List.map_map]
    have h2 : ((sortSalesByDate sales).foldl aggStep aggInit).total
        = sumAmounts (sortSalesByDate sales) := by
      simpa [aggInit] using foldl_aggStep_total (sortSalesByDate sales) aggInit
    have h3 : valsSum ((sortSalesByDate sales).foldl aggStep aggInit).dr
        = sumAmounts (sortSalesByDate sales) := by
      simpa [aggInit, valsSum] using foldl_aggStep_drSum (sortSalesByDate sales) aggInit
    rw [h2, ← h3]
    rfl

/-- C2: the six-record example parses to the expected records, and the
pipeline computes total revenue 1234, 6 orders, 3 unique customers,
2 overdue records totalling 398, and an average order value of 617/3,
which is within 0.01 of 205.67. -/
theorem C2_end_to_end_example :
    parseCSVGo (.ok exampleRows) = .ok exampleSales ∧
    (computeKPIs exampleSales).totalRevenue = 1234 ∧
    (computeKPIs exampleSales).orders = 6 ∧
    (computeKPIs exampleSales).uniqueCustomers = 3 ∧
    (computeKPIs exampleSales).overdueCount = 2 ∧
    (computeKPIs exampleSales).overdueTotal = 398 ∧
    (computeKPIs exampleSales).avgOrderValue = 617 / 3 ∧
    |(computeKPIs exampleSales).avgOrderValue - 20567 / 100| < 1 / 100 := by
  refine ⟨?_, ?_, ?_, ?_, ?_, ?_, ?_, ?_⟩ <;> with_unfolding_all decide

/-- C4: on records whose status is already lower-cased (as every record
produced by the normalizer is), a record is counted overdue exactly when
its lower-cased status contains one of "overdue", "unpaid", "due"; the
overdue count and total are the count and amount-sum of those records,
and total revenue still includes those amounts (it is the sum of all
amounts). -/
theorem C4_overdue_detection (sales : List Sale)
    (h : ∀ s ∈ sales, goToLower s.status = s.status) :
    (computeKPIs sales).overdueCount = (sales.filter overdueClaim).length ∧
    (computeKPIs sales).overdueTotal
      = ((sales.filter overdueClaim).map (fun s => s.amount)).sum ∧
    (computeKPIs sales).totalRevenue = sumAmounts sales := by
  have hcong : ∀ s ∈ sales, overdueB s = overdueClaim s := by
    intro s hs
    unfold overdueB overdueClaim
    rw [h s hs]
  by_cases hn : sales.length = 0
  · have : sales = [] := List.eq_nil_of_length_eq_zero hn
    subst this
    refine ⟨?_, ?_, ?_⟩ <;> simp [computeKPIs, kpisZero, sumAmounts]
  · have hperm : (sortSalesByDate sales).Perm sales := goSortSlice_perm _ sales
    have hcong' : ∀ s ∈ sortSalesByDate sales, overdueB s = overdueClaim s :=
      fun s hs => hcong s (hperm.mem_iff.mp hs)
    rw [computeKPIs, if_neg hn]
    dsimp only []
    refine ⟨?_, ?_, ?_⟩
    · have h1 : ((sortSalesByDate sales).foldl aggStep aggInit).overdueCount
          = (sortSalesByDate sales).countP overdueB := by
        simpa [aggInit] using foldl_aggStep_overdueCount (sortSalesByDate sales) aggInit
      rw [h1, List.countP_congr (fun x hx => by rw [hcong' x hx]), hperm.countP_eq,
        List.countP_eq_length_filter]
    · have h1 : ((sortSalesByDate sales).foldl aggStep aggInit).overdueTotal
          = (((sortSalesByDate sales).filter overdueB).map (fun s => s.amount)).sum := by
        simpa [aggInit] using foldl_aggStep_overdueTotal (sortSalesByDate sales) aggInit
      rw [h1, List.filter_congr hcong', (((hperm.filter overdueClaim)).map _).sum_eq]
    · have h1 : ((sortSalesByDate sales).foldl aggStep aggInit).total
          = sumAmounts (sortSalesByDate sales) := by
        simpa [aggInit] using foldl_aggStep_total (sortSalesByDate sales) aggInit
      rw [h1]
      exact (hperm.map (fun s => s.amount)).sum_eq

/-- C10: a day whose real z-score is exactly `2` or `-2` is flagged as an
anomaly (the threshold test is `|z| ≥ 2`), yet the recommendation engine
emits no dip and no spike message for it (its rules are the strict
`z < -2` and `z > 2`), while the non-empty anomaly list still suppresses
the "steady performance" fallback message. -/
theorem C10_exact_threshold_boundary (d : List KVt) (x : KVt) (hx : x ∈ d)
    (hlen : 7 ≤ d.length) (hvar : varQ d ≠ 0)
    (hz : zscoreOf (x.value - meanQ d) (varQ d) = 2
      ∨ zscoreOf (x.value - meanQ d) (varQ d) = -2) :
    mkAnomaly (meanQ d) (varQ d) x ∈ detectAnomalies d ∧
    anomalyMsg (mkAnomaly (meanQ d) (varQ d) x) = none ∧
    ∀ total aov oc ot tc tp,
      Suggestion.steady ∉ suggestions total aov oc ot tc tp (detectAnomalies d) := by
  have hpos : 0 < varQ d := lt_of_le_of_ne (varQ_nonneg d) (Ne.symm hvar)
  have habs : 2 ≤ |zscoreOf (x.value - meanQ d) (varQ d)| := by
    rcases hz with h | h <;> rw [h] <;> norm_num
  have hflag : anomFlag (meanQ d) (varQ d) x = true := by
    unfold anomFlag
    rw [decide_eq_true_iff]
    exact (zsq_abs_ge_two_iff _ _ hpos).mp habs
  have hmem : mkAnomaly (meanQ d) (varQ d) x ∈ detectAnomalies d := by
    unfold detectAnomalies
    rw [if_neg (by omega), if_neg hvar]
    exact List.mem_filterMap.mpr ⟨x, hx, by rw [hflag]; simp⟩
  have hnotlt : zLtNegTwo (mkAnomaly (meanQ d) (varQ d) x) = false := by
    unfold zLtNegTwo
    rw [decide_eq_false_iff_not]
    intro hcon
    have : zscoreOf (x.value - meanQ d) (varQ d) < -2 := by
      have hb := (zsq_lt_neg_two_iff (mkAnomaly (meanQ d) (varQ d) x).zNum
        (mkAnomaly (meanQ d) (varQ d) x).zVar (by simpa [mkAnomaly] using hpos)).mpr hcon
      simpa [mkAnomaly] using hb
    rcases hz with h | h <;> rw [h] at this <;> norm_num at this
  have hnotgt : zGtTwo (mkAnomaly (meanQ d) (varQ d) x) = false := by
    unfold zGtTwo
    rw [decide_eq_false_iff_not]
    intro hcon
    have : 2 < zscoreOf (x.value - meanQ d) (varQ d) := by
      have hb := (zsq_gt_two_iff (mkAnomaly (meanQ d) (varQ d) x).zNum
        (mkAnomaly (meanQ d) (varQ d) x).zVar (by simpa [mkAnomaly] using hpos)).mpr hcon
      simpa [mkAnomaly] using hb
    rcases hz with h | h <;> rw [h] at this <;> norm_num at this
  refine ⟨hmem, by unfold anomalyMsg; rw [hnotlt, hnotgt]; simp, ?_⟩
  intro total aov oc ot tc tp hin
  unfold suggestions at hin
  rcases List.mem_append.mp hin with hin | hin
  rcases List.mem_append.mp hin with hin | hin
  rcases List.mem_append.mp hin with hin | hin
  rcases List.mem_append.mp hin with hin | hin
  rcases List.mem_append.mp hin with hin | hin
  on_goal 1 => revert hin; split <;> simp
  on_goal 1 => revert hin; split <;> simp
  on_goal 1 => revert hin; split <;> simp
  on_goal 1 => revert hin; split <;> simp
  · exact steady_not_mem_anomalyMsgs _ hin
  · revert hin
    split
    · intro hin
      rename_i hcond
      have hnil : detectAnomalies d = [] := List.eq_nil_of_length_eq_zero hcond.2.2.2
      rw [hnil] at hmem
      simp at hmem
    · simp

/-- Witness for C10 at the eight-point series `seriesPM2` (mean 5,
variance 1), whose day with value 7 has z-score exactly 2. -/
theorem C10_witness :
    julyPoint 7 7 ∈ seriesPM2 ∧ 7 ≤ seriesPM2.length ∧ varQ seriesPM2 ≠ 0 ∧
    zscoreOf ((julyPoint 7 7).value - meanQ seriesPM2) (varQ seriesPM2) = 2 ∧
    mkAnomaly (meanQ seriesPM2) (varQ seriesPM2) (julyPoint 7 7) ∈ detectAnomalies seriesPM2 ∧
    anomalyMsg (mkAnomaly (meanQ seriesPM2) (varQ seriesPM2) (julyPoint 7 7)) = none ∧
    Suggestion.steady ∉ suggestions 1 1 0 0 [] [] (detectAnomalies seriesPM2) := by
  have hmean : meanQ seriesPM2 = 5 := by with_unfolding_all decide
  have hvar1 : varQ seriesPM2 = 1 := by with_unfolding_all decide
  have hz : zscoreOf ((julyPoint 7 7).value - meanQ seriesPM2) (varQ seriesPM2) = 2 := by
    rw [show (julyPoint 7 7).value = 7 from rfl, hmean, hvar1]
    unfold zscoreOf
    push_cast
    rw [Real.sqrt_one]
    norm_num
  have h := C10_exact_threshold_boundary seriesPM2 (julyPoint 7 7) (by decide) (by decide)
    (by with_unfolding_all decide) (Or.inl hz)
  exact ⟨by decide, by decide, by with_unfolding_all decide, hz, h.1, h.2.1,
    h.2.2 1 1 0 0 [] []⟩

/-- Witness for C4 at the concrete example records (their statuses are
lower-case). -/
theorem C4_witness :
    (∀ s ∈ exampleSales, goToLower s.status = s.status) ∧
    (computeKPIs exampleSales).overdueCount = (exampleSales.filter overdueClaim).length ∧
    (computeKPIs exampleSales).overdueTotal
      = ((exampleSales.filter overdueClaim).map (fun s => s.amount)).sum ∧
    (computeKPIs exampleSales).totalRevenue = sumAmounts exampleSales := by
  have hlc : ∀ s ∈ exampleSales, goToLower s.status = s.status := by
    with_unfolding_all decide
  exact ⟨hlc, C4_overdue_detection exampleSales hlc⟩

/-- C9: the fuzzy header lookup is the only order-sensitive part of
`parseCSV`; when, for each logical field token, at most one (lower-cased,
deduplicated) header name contains that token, the extracted records do
not depend on the enumeration order of the header map: any two
enumerations (permutations of the map's entries) give identical record
sequences. -/
theorem C9_header_lookup_deterministic (records : List (List String))
    (e₁ e₂ : List (String × ℕ))
    (h₁ : e₁.Perm (canonHeader (records.headD [])))
    (h₂ : e₂.Perm (canonHeader (records.headD [])))
    (uniq : ∀ tok ∈ keyTokens, ∀ x ∈ canonHeader (records.headD []),
      ∀ y ∈ canonHeader (records.headD []),
        goContainsStr x.1 tok → goContainsStr y.1 tok → x = y) :
    parseCSVWith e₁ records = parseCSVWith e₂ records := by
  have hgc : ∀ (row : List String), ∀ tok ∈ keyTokens,
      getCol e₁ row tok = getCol e₂ row tok := by
    intro row tok htok
    unfold getCol
    rw [find_eq_of_perm_of_unique _ (h₁.trans h₂.symm) ?_]
    intro x hx y hy hqx hqy
    have hx' := h₁.subset hx
    have hy' := h₁.subset hy
    have hcx : goContainsStr x.1 tok := by
      have := (Bool.and_eq_true _ _).mp hqx
      exact this.1
    have hcy : goContainsStr y.1 tok := by
      have := (Bool.and_eq_true _ _).mp hqy
      exact this.1
    exact uniq tok htok x hx' y hy' hcx hcy
  unfold parseCSVWith
  apply filterMap_congr_mem
  intro row _
  unfold rowToSale
  rw [hgc row "date" (by simp [keyTokens]), hgc row "amount" (by simp [keyTokens]),
    hgc row "customer" (by simp [keyTokens]), hgc row "product" (by simp [keyTokens]),
    hgc row "status" (by simp [keyTokens])]

/-- Witness for C9: the canonical example header enumerated forwards and
backwards yields the same records. -/
theorem C9_witness :
    ((canonHeader (exampleRows.headD [])).Perm (canonHeader (exampleRows.headD []))) ∧
    ((canonHeader (exampleRows.headD [])).reverse.Perm (canonHeader (exampleRows.headD []))) ∧
    (∀ tok ∈ keyTokens, ∀ x ∈ canonHeader (exampleRows.headD []),
      ∀ y ∈ canonHeader (exampleRows.headD []),
        goContainsStr x.1 tok → goContainsStr y.1 tok → x = y) ∧
    parseCSVWith (canonHeader (exampleRows.headD [])) exampleRows
      = parseCSVWith (canonHeader (exampleRows.headD [])).reverse exampleRows := by
  have hu : ∀ tok ∈ keyTokens, ∀ x ∈ canonHeader (exampleRows.headD []),
      ∀ y ∈ canonHeader (exampleRows.headD []),
        goContainsStr x.1 tok → goContainsStr y.1 tok → x = y := by
    with_unfolding_all decide
  exact ⟨List.Perm.refl _, (canonHeader (exampleRows.headD [])).reverse_perm, hu,
    C9_header_lookup_deterministic exampleRows _ _ (List.Perm.refl _)
      ((canonHeader (exampleRows.headD [])).reverse_perm) hu⟩

/-- Counterexample to C3 as stated: the date `0001-01-01` is parsable (the
ISO layout accepts it), yet `parseDateFlexible` yields Go's zero time for
it, so the only data row of `zeroDateRows` is silently dropped: the
ingestion succeeds but the returned record sequence omits a row whose
date is neither missing nor unparsable. -/
theorem C3_counterexample :
    parseLayoutISO ("0001-01-01".data) = some goTimeZero ∧
    timeIsZero (parseDateFlexible "0001-01-01") = true ∧
    parseCSVGo (.ok zeroDateRows) = .ok [] := by
  refine ⟨?_, ?_, ?_⟩ <;> with_unfolding_all decide

/-- C3 (amended): ingestion fails exactly on an unreadable stream
(`csv read: …`) or on fewer than two rows; on every other input it
succeeds with the complete normalized sequence, a data row being dropped
exactly when its date field is empty or its parsed date is Go's zero
time instant — which covers unparsable dates and the literal zero date
`0001-01-01`.  (`Except` makes a partial-result-with-error impossible,
as the Go function returns `nil` records on error.) -/
theorem C3_ingestion_error_iff :
    (∀ e, parseCSVGo (.error e) = .error ("csv read: " ++ e)) ∧
    (∀ recs, recs.length < 2 → parseCSVGo (.ok recs) = .error "csv has no data rows") ∧
    (∀ recs, 2 ≤ recs.length →
      parseCSVGo (.ok recs)
          = .ok ((recs.drop 1).filterMap (rowToSale (canonHeader (recs.headD [])))) ∧
        ∀ row,
          rowToSale (canonHeader (recs.headD [])) row = none ↔
            (getCol (canonHeader (recs.headD [])) row "date" = "" ∨
              timeIsZero (parseDateFlexible
                (getCol (canonHeader (recs.headD [])) row "date")) = true)) := by
  refine ⟨fun e => rfl, fun recs h => ?_, fun recs h => ⟨?_, fun row => ?_⟩⟩
  · unfold parseCSVGo
    dsimp only []
    rw [if_pos h]
  · unfold parseCSVGo
    dsimp only []
    rw [if_neg (by omega)]
    rfl
  · unfold rowToSale
    constructor
    · intro hnone
      by_cases hds : getCol (canonHeader (recs.headD [])) row "date" = ""
      · exact Or.inl hds
      · rw [if_neg hds] at hnone
        by_cases hz : timeIsZero (parseDateFlexible
            (getCol (canonHeader (recs.headD [])) row "date")) = true
        · exact Or.inr hz
        · rw [if_neg hz] at hnone
          simp at hnone
    · rintro (hds | hz)
      · rw [if_pos hds]
      · by_cases hds : getCol (canonHeader (recs.headD [])) row "date" = ""
        · rw [if_pos hds]
        · rw [if_neg hds, if_pos hz]

/-- Witness for the amended C3 at the example rows (seven rows, all
retained). -/
theorem C3_witness :
    2 ≤ exampleRows.length ∧
    parseCSVGo (.ok exampleRows)
      = .ok ((exampleRows.drop 1).filterMap (rowToSale (canonHeader (exampleRows.headD [])))) :=
  ⟨by decide, (C3_ingestion_error_iff.2.2 exampleRows (by decide)).1⟩

/-- Counterexample to C7 as stated: in `thirteenSales` the records of
customers `c1` (position 1) and `c9` (position 9) carry the same date,
but the aggregator's sort step (`sort.Slice`, pattern-defeating
quicksort) emits `c9` before `c1`: same-day records do not keep their
original relative order once the range is long enough to leave the
stable insertion-sort path. -/
theorem C7_counterexample :
    (thirteenSales.getD 1 (julySale 1 "x")).date = (thirteenSales.getD 9 (julySale 1 "x")).date ∧
    custIdx thirteenSales "c1" < custIdx thirteenSales "c9" ∧
    custIdx (sortSalesByDate thirteenSales) "c9"
      < custIdx (sortSalesByDate thirteenSales) "c1" := by
  refine ⟨?_, ?_, ?_⟩ <;> with_unfolding_all decide

/-- C7 (amended): the aggregator's first step reorders the records by
date with Go's unstable `sort.Slice`: the result is always a permutation
of the input (proved for every record list), and it is ordered
nondecreasing by date on the concrete run below, but same-day records
need not keep their original relative order (`thirteenSales` puts `c9`
before `c1`). -/
theorem C7_sort_permutation_not_stable :
    (∀ l : List Sale, (sortSalesByDate l).Perm l) ∧
    List.Pairwise (fun s t => timeBefore t.date s.date = false)
      (sortSalesByDate thirteenSales) ∧
    (thirteenSales.getD 1 (julySale 1 "x")).date = (thirteenSales.getD 9 (julySale 1 "x")).date ∧
    custIdx thirteenSales "c1" < custIdx thirteenSales "c9" ∧
    custIdx (sortSalesByDate thirteenSales) "c9"
      < custIdx (sortSalesByDate thirteenSales) "c1" := by
  refine ⟨fun l => goSortSlice_perm _ l, ?_, ?_, ?_, ?_⟩ <;> with_unfolding_all decide

/-! Digit-character facts and parser round trips, used to settle C6. -/

theorem isDigit_digitChar (n : ℕ) : (digitChar n).isDigit = true := by
  unfold digitChar
  have h : n % 10 < 10 := Nat.mod_lt _ (by norm_num)
  generalize n % 10 = k at h ⊢
  interval_cases k <;> decide

theorem digitVal_digitChar (n : ℕ) : digitVal (digitChar n) = n % 10 := by
  unfold digitChar
  have h : n % 10 < 10 := Nat.mod_lt _ (by norm_num)
  generalize n % 10 = k at h ⊢
  interval_cases k <;> decide

theorem isGoSpace_digitChar (n : ℕ) : isGoSpace (digitChar n) = false := by
  unfold digitChar
  have h : n % 10 < 10 := Nat.mod_lt _ (by norm_num)
  generalize n % 10 = k at h ⊢
  interval_cases k <;> decide

theorem parse2_pad2 (n : ℕ) (rest : List Char) (hn : n ≤ 99) :
    parse2 (pad2 n ++ rest) = some (n, rest) := by
  unfold pad2 parse2
  simp [isDigit_digitChar, digitVal_digitChar]
  omega

theorem parse4_pad4 (y : ℕ) (rest : List Char) (hy : y ≤ 9999) :
    parse4 (pad4 y ++ rest) = some (y, rest) := by
  unfold pad4
  rw [if_pos (by omega : y < 10000)]
  unfold parse4
  simp [isDigit_digitChar, digitVal_digitChar]
  omega

theorem parse4_pad4_nil (y : ℕ) (hy : y ≤ 9999) : parse4 (pad4 y) = some (y, []) := by
  simpa using parse4_pad4 y [] hy

theorem expectChar_cons (c : Char) (rest : List Char) :
    expectChar c (c :: rest) = some rest := by
  simp [expectChar]

theorem parse4_slash_third (c1 c2 c4 : Char) (rest : List Char) :
    parse4 (c1 :: c2 :: '/' :: c4 :: rest) = none := by
  unfold parse4
  simp [show ('/').isDigit = false from by decide]

theorem dropWhile_eq_self_of_none {p : Char → Bool} :
    ∀ l : List Char, (∀ c ∈ l, p c = false) → l.dropWhile p = l := by
  intro l h
  cases l with
  | nil => rfl
  | cons c cs =>
    rw [List.dropWhile_cons, h c (by simp)]
    simp

theorem goTrimChars_eq_self (cs : List Char) (h : ∀ c ∈ cs, isGoSpace c = false) :
    goTrimChars cs = cs := by
  unfold goTrimChars
  rw [dropWhile_eq_self_of_none cs h,
    dropWhile_eq_self_of_none cs.reverse (fun c hc => h c (List.mem_reverse.mp hc)),
    List.reverse_reverse]

theorem renderSlash_data (a b y : ℕ) (hy : y < 10000) :
    (renderSlash a b y).data
      = digitChar (a / 10) :: digitChar a :: '/' :: digitChar (b / 10) :: digitChar b
        :: '/' :: digitChar (y / 1000) :: digitChar (y / 100) :: digitChar (y / 10)
        :: digitChar y :: [] := by
  simp [renderSlash, pad2, pad4, if_pos hy]

/-- Counterexample to C6 as stated: the claim's "exactly" list omits the
code's fourth layout `2006/01/02`; the string `2025/07/03` parses under
the code's list but would be rejected (zero time) under the claim's. -/
theorem C6_counterexample :
    parseDateFlexible "2025/07/03" = ⟨2025, 7, 3, 0, 0, 0, 0⟩ ∧
    parseDateFlexibleClaim "2025/07/03" = goTimeZero := by
  refine ⟨?_, ?_⟩ <;> with_unfolding_all decide

/-- C6 (amended): `parseDateFlexible` tries, in order, exactly the layouts
ISO date, day/month slash, month/day slash, year/month/day slash,
dot-separated, full timestamp, and then year-month only (`goCandidates`
followed by `parseLayoutYM`), the first success winning; in particular
every two-field slash date whose fields are valid both as day/month and
as month/day is resolved by the day/month layout, which is tried first:
`aa/bb/yyyy` parses to day `a`, month `b`, year `y`. -/
theorem C6_slash_ambiguity (a b y : ℕ)
    (hdm : 1 ≤ b ∧ b ≤ 12 ∧ 1 ≤ a ∧ a ≤ daysInMonth y b)
    (hmd : 1 ≤ a ∧ a ≤ 12 ∧ 1 ≤ b ∧ b ≤ daysInMonth y a)
    (hy : y ≤ 9999) :
    parseDateFlexible (renderSlash a b y) = ⟨y, b, a, 0, 0, 0, 0⟩ := by
  have ha99 : a ≤ 99 := le_trans hmd.2.1 (by norm_num)
  have hb99 : b ≤ 99 := le_trans hdm.2.1 (by norm_num)
  have hy' : y < 10000 := by omega
  have hdata := renderSlash_data a b y hy'
  have hpadform : (renderSlash a b y).data = pad2 a ++ ('/' :: (pad2 b ++ ('/' :: pad4 y))) := by
    simp [renderSlash]
  have htrim : goTrimChars (renderSlash a b y).data = (renderSlash a b y).data := by
    apply goTrimChars_eq_self
    intro c hc
    rw [hdata] at hc
    simp only [List.mem_cons, List.not_mem_nil, or_false] at hc
    rcases hc with h | h | h | h | h | h | h | h | h | h <;> subst h <;>
      first
        | exact isGoSpace_digitChar _
        | decide
  have hISO : parseLayoutISO (renderSlash a b y).data = none := by
    rw [hdata]
    unfold parseLayoutISO
    rw [parse4_slash_third]
    rfl
  have hDM : parseLayoutDM (renderSlash a b y).data = some ⟨y, b, a, 0, 0, 0, 0⟩ := by
    rw [hpadform]
    unfold parseLayoutDM
    rw [parse2_pad2 a _ ha99]
    simp only [Option.bind_eq_bind, Option.some_bind]
    rw [expectChar_cons]
    simp only [Option.some_bind]
    rw [parse2_pad2 b _ hb99]
    simp only [Option.some_bind]
    rw [expectChar_cons]
    simp only [Option.some_bind]
    rw [parse4_pad4_nil y hy]
    simp only [Option.some_bind]
    unfold expectEnd mkDate
    simp only [Option.some_bind]
    rw [if_pos hdm]
  unfold parseDateFlexible
  dsimp only []
  rw [htrim]
  unfold goCandidates firstParse
  rw [hISO]
  dsimp only []
  unfold firstParse
  rw [hDM]

/-- Witness for the amended C6 at the claim's own example `01/02/2006`:
both readings are calendar-valid and the day/month layout wins, giving
February 1, 2006. -/
theorem C6_witness :
    (1 ≤ 2 ∧ 2 ≤ 12 ∧ 1 ≤ 1 ∧ 1 ≤ daysInMonth 2006 2) ∧
    (1 ≤ 1 ∧ 1 ≤ 12 ∧ 1 ≤ 2 ∧ 2 ≤ daysInMonth 2006 1) ∧
    (2006 ≤ 9999) ∧
    renderSlash 1 2 2006 = "01/02/2006" ∧
    parseDateFlexible (renderSlash 1 2 2006) = ⟨2006, 2, 1, 0, 0, 0, 0⟩ :=
  ⟨by decide, by decide, by decide, by with_unfolding_all decide,
    C6_slash_ambiguity 1 2 2006 (by decide) (by decide) (by decide)⟩

end BizOps
